import Mathlib

/-!
Verification development for the Bollywood Bias Buster core
(`src/models/bias_detection_model.py` and `src/models/bias_rewriter.py`).

Text is modelled as `List Char`; Python floats are modelled as exact
rationals (`Rat`); Python ints as `Int`/`Nat`.  Scanning functions that
are not structurally recursive take an explicit fuel argument, always
called with at least the length of the scanned list, so that every
definition is executable by the kernel.
-/

/-- Shorthand: the character list of a string literal. -/
def lc (s : String) : List Char := s.toList

/-- ASCII uppercase test, the `[A-Z]` character class. -/
def isUpperChar (c : Char) : Bool := 'A' ≤ c && c ≤ 'Z'

/-- ASCII lowercase test, the `[a-z]` character class. -/
def isLowerChar (c : Char) : Bool := 'a' ≤ c && c ≤ 'z'

/-- ASCII digit test. -/
def isDigitChar (c : Char) : Bool := '0' ≤ c && c ≤ '9'

/-- The regex word class `\w` (ASCII fragment). -/
def isWordChar (c : Char) : Bool :=
  isUpperChar c || isLowerChar c || isDigitChar c || c = '_'

/-- Python whitespace (`str.split`, `str.strip`, regex `\s`). -/
def isSpaceChar (c : Char) : Bool :=
  c = ' ' || c = '\t' || c = '\n' || c = '\r' || c = '\x0b' || c = '\x0c'

/-- Sentence terminators, the `[.!?]` class used by the extractor. -/
def isTermChar (c : Char) : Bool := c = '.' || c = '!' || c = '?'

/-- Python `str.lower` (ASCII fragment). -/
def lowerL (l : List Char) : List Char := l.map Char.toLower

/-- Python `str.upper` (ASCII fragment). -/
def upperL (l : List Char) : List Char := l.map Char.toUpper

/-- Python `needle in hay`: substring test. -/
def inStr (needle hay : List Char) : Bool :=
  hay.tails.any (fun t => needle.isPrefixOf t)

/-- Python `str.strip()`: remove leading and trailing whitespace. -/
def trimWs (l : List Char) : List Char :=
  ((l.dropWhile isSpaceChar).reverse.dropWhile isSpaceChar).reverse

/-- Python `str.split('\n')`. -/
def splitLinesGo (acc : List Char) : List Char → List (List Char)
  | [] => [acc.reverse]
  | c :: cs =>
    if c = '\n' then acc.reverse :: splitLinesGo [] cs
    else splitLinesGo (c :: acc) cs

def splitLines (l : List Char) : List (List Char) := splitLinesGo [] l

/-- Python `str.count` for a non-empty needle: number of non-overlapping
occurrences, scanning left to right (fueled; fuel ≥ haystack length). -/
def countSubF : Nat → List Char → List Char → Nat
  | 0, _, _ => 0
  | _ + 1, _, [] => 0
  | fuel + 1, needle, c :: hay =>
    if needle.isPrefixOf (c :: hay) then
      1 + countSubF fuel needle ((c :: hay).drop needle.length)
    else countSubF fuel needle hay

/-- Python `hay.count(needle)` (empty needle returns `len+1` as Python does). -/
def countSub (needle hay : List Char) : Nat :=
  if needle.isEmpty then hay.length + 1 else countSubF hay.length needle hay

/-- Number of whitespace-separated tokens: `len(text.split())`. -/
def wsTokensF : Nat → List Char → Nat
  | 0, _ => 0
  | _ + 1, [] => 0
  | fuel + 1, c :: cs =>
    if isSpaceChar c then wsTokensF fuel cs
    else 1 + wsTokensF fuel (cs.dropWhile (fun d => !isSpaceChar d))

def wsTokens (l : List Char) : Nat := wsTokensF l.length l

/-! ### Character extraction (`bias_detection_model.py`) -/

/-- One detected entity (`@dataclass Character`). -/
structure Character where
  name : List Char
  gender : String
  professions : List (List Char)
  relationships : List (List Char)
  agency_level : Int
  appearance_descriptions : List (List Char)
  dialogue_count : Nat
  screen_time : Rat
deriving DecidableEq, Repr

/-- The six bias dimensions plus their mean (`@dataclass BiasScores`). -/
structure BiasScores where
  occupation_gap : Rat
  agency_gap : Rat
  appearance_focus : Rat
  relationship_defining : Rat
  dialogue_imbalance : Rat
  screen_time_imbalance : Rat
  overall : Rat
deriving DecidableEq, Repr

/-- `self.female_names` gazetteer. -/
def female_names : List (List Char) :=
  [lc "priya", lc "simran", lc "rani", lc "meera", lc "sonia", lc "kavya",
   lc "anjali", lc "pooja", lc "neha", lc "ritu", lc "deepika", lc "kareena",
   lc "aishwarya"]

/-- `self.male_names` gazetteer. -/
def male_names : List (List Char) :=
  [lc "raj", lc "rohit", lc "vijay", lc "arjun", lc "rahul", lc "amit",
   lc "suresh", lc "ravi", lc "kumar", lc "dev", lc "shah", lc "khan",
   lc "sharma"]

/-- `self.professions`. -/
def professions_vocab : List (List Char) :=
  [lc "doctor", lc "engineer", lc "teacher", lc "lawyer", lc "businessman",
   lc "scientist", lc "artist", lc "writer", lc "director", lc "manager",
   lc "housewife", lc "student", lc "nurse", lc "secretary"]

/-- `self.appearance_words`. -/
def appearance_words : List (List Char) :=
  [lc "beautiful", lc "pretty", lc "gorgeous", lc "stunning", lc "attractive",
   lc "handsome", lc "charming", lc "elegant", lc "lovely", lc "cute"]

/-- `self.relationship_indicators`. -/
def relationship_indicators : List (List Char) :=
  [lc "daughter of", lc "son of", lc "wife of", lc "husband of",
   lc "mother of", lc "father of", lc "girlfriend", lc "boyfriend",
   lc "sister of", lc "brother of"]

/-- Active verbs of `_calculate_agency_level`. -/
def active_verbs : List (List Char) :=
  [lc "decides", lc "chooses", lc "leads", lc "creates", lc "builds",
   lc "fights", lc "runs", lc "manages"]

/-- Passive indicators of `_calculate_agency_level`. -/
def passive_indicators : List (List Char) :=
  [lc "waits for", lc "depends on", lc "needs permission", lc "asks for help"]

/-- `common_words` stop set of `extract_characters_advanced`. -/
def common_words : List (List Char) :=
  [lc "The", lc "And", lc "But", lc "For", lc "With", lc "From", lc "This",
   lc "That"]

/-- Does the word-boundary `\b` hold before the given rest of the text? -/
def boundaryOk : List Char → Bool
  | [] => true
  | d :: _ => !isWordChar d

/-- `re.findall(r'\b[A-Z][a-z]+\b', text)`: scan (fueled), tracking whether
the previous character was a word character. -/
def capWordsF : Nat → Bool → List Char → List (List Char)
  | 0, _, _ => []
  | _ + 1, _, [] => []
  | fuel + 1, prevW, c :: cs =>
    if !prevW && isUpperChar c then
      let low := cs.takeWhile isLowerChar
      if low.isEmpty then capWordsF fuel (isWordChar c) cs
      else if boundaryOk (cs.dropWhile isLowerChar) then
        (c :: low) :: capWordsF fuel true (cs.dropWhile isLowerChar)
      else capWordsF fuel (isWordChar c) cs
    else capWordsF fuel (isWordChar c) cs

def find_capitalized_words (text : List Char) : List (List Char) :=
  capWordsF (text.length + 1) false text

/-- Keys of a Python dict built by repeated insertion: first-occurrence
order, no duplicates. -/
def firstDedupAux (seen : List (List Char)) : List (List Char) → List (List Char)
  | [] => []
  | a :: l =>
    if a ∈ seen then firstDedupAux seen l
    else a :: firstDedupAux (a :: seen) l

/-- `re.split(r'[.!?]+', text)`: pieces between maximal terminator runs.
`skipping` records that we are inside a terminator run. -/
def splitGo (skipping : Bool) (acc : List Char) : List Char → List (List Char)
  | [] => if skipping then [[]] else [acc.reverse]
  | c :: cs =>
    if skipping then
      if isTermChar c then splitGo true [] cs else splitGo false [c] cs
    else
      if isTermChar c then acc.reverse :: splitGo true [] cs
      else splitGo false (c :: acc) cs

def splitSentences (text : List Char) : List (List Char) := splitGo false [] text

/-- `_detect_gender`. -/
def detect_gender (name context : List Char) : String :=
  let name_lower := lowerL name
  if female_names.any (fun fn => inStr fn name_lower) then "female"
  else if male_names.any (fun mn => inStr mn name_lower) then "male"
  else
    let context_lower := lowerL context
    let female_pronouns := countSub (lc "she") context_lower + countSub (lc "her") context_lower
    let male_pronouns := countSub (lc "he") context_lower + countSub (lc "him") context_lower
    if female_pronouns > male_pronouns then "female"
    else if male_pronouns > female_pronouns then "male"
    else "unknown"

/-- `_find_professions`. -/
def find_professions (text : List Char) : List (List Char) :=
  professions_vocab.filter (fun p => inStr p (lowerL text))

/-- `_find_relationships`. -/
def find_relationships (text : List Char) : List (List Char) :=
  relationship_indicators.filter (fun p => inStr p (lowerL text))

/-- `_calculate_agency_level`: start at 5, +1 per active verb present,
−1 per passive indicator present, clamp to [1,10]. -/
def calculate_agency_level (text : List Char) : Int :=
  let text_lower := lowerL text
  let s1 := active_verbs.foldl
    (fun acc v => if inStr v text_lower then acc + 1 else acc) (5 : Int)
  let s2 := passive_indicators.foldl
    (fun acc v => if inStr v text_lower then acc - 1 else acc) s1
  max 1 (min 10 s2)

/-- `_find_appearance_descriptions`. -/
def find_appearance_descriptions (text : List Char) : List (List Char) :=
  appearance_words.filter (fun p => inStr p (lowerL text))

/-- `_count_dialogue`: lines whose stripped upper-cased content starts
with the upper-cased name. -/
def count_dialogue (name text : List Char) : Nat :=
  ((splitLines text).filter
    (fun line => (upperL name).isPrefixOf (upperL (trimWs line)))).length

/-- `_estimate_screen_time`: mention density × 100. -/
def estimate_screen_time (name text : List Char) : Rat :=
  ((countSub (lowerL name) (lowerL text) : Rat) / (max (wsTokens text) 1 : Nat)) * 100

/-- `_analyze_character`: `None` when no sentence mentions the name. -/
def analyze_character (name text : List Char) : Option Character :=
  let sentences := splitSentences text
  let character_sentences :=
    sentences.filter (fun s => inStr (lowerL name) (lowerL s))
  if character_sentences.isEmpty then none
  else
    let character_text := List.intercalate (lc " ") character_sentences
    some
      { name := name
        gender := detect_gender name character_text
        professions := find_professions character_text
        relationships := find_relationships character_text
        agency_level := calculate_agency_level character_text
        appearance_descriptions := find_appearance_descriptions character_text
        dialogue_count := count_dialogue name text
        screen_time := estimate_screen_time name text }

/-- Candidate names of `extract_characters_advanced`: capitalized tokens
occurring ≥ 2 times, minus the stop set, in discovery order. -/
def potential_names (text : List Char) : List (List Char) :=
  let words := find_capitalized_words text
  (firstDedupAux [] words).filter
    (fun n => decide (2 ≤ words.count n) && !(common_words.contains n))

/-- `extract_characters_advanced`: first ten candidate names in discovery
order, each analyzed, dropping the `None` results. -/
def extract_characters_advanced (text : List Char) : List Character :=
  ((potential_names text).take 10).filterMap (fun n => analyze_character n text)

/-! ### Bias scorer (`calculate_comprehensive_bias_scores`) -/

/-- `np.mean` on a list of rationals (unreachable on empty inputs in all
guarded call sites). -/
def np_mean (l : List Rat) : Rat := l.sum / (l.length : Nat)

/-- `_calculate_occupation_gap`. -/
def calculate_occupation_gap (female_chars male_chars : List Character) : Rat :=
  if female_chars.isEmpty then 0
  else
    let female_with_prof := (female_chars.filter (fun c => !c.professions.isEmpty)).length
    let male_with_prof := (male_chars.filter (fun c => !c.professions.isEmpty)).length
    let female_prof_rate : Rat := (female_with_prof : Nat) / (female_chars.length : Nat)
    let male_prof_rate : Rat := (male_with_prof : Nat) / (max male_chars.length 1 : Nat)
    max 0 ((male_prof_rate - female_prof_rate) * 100)

/-- `_calculate_agency_gap`. -/
def calculate_agency_gap (female_chars male_chars : List Character) : Rat :=
  if female_chars.isEmpty then 0
  else
    let avg_female_agency := np_mean (female_chars.map (fun c => (c.agency_level : Rat)))
    let avg_male_agency :=
      if male_chars.isEmpty then 5
      else np_mean (male_chars.map (fun c => (c.agency_level : Rat)))
    max 0 ((avg_male_agency - avg_female_agency) * 10)

/-- `_calculate_appearance_focus`. -/
def calculate_appearance_focus (female_chars male_chars : List Character) : Rat :=
  if female_chars.isEmpty then 0
  else
    let female_appearance :=
      np_mean (female_chars.map (fun c => (c.appearance_descriptions.length : Rat)))
    let male_appearance :=
      if male_chars.isEmpty then 0
      else np_mean (male_chars.map (fun c => (c.appearance_descriptions.length : Rat)))
    max 0 ((female_appearance - male_appearance) * 25)

/-- `_calculate_relationship_defining`. -/
def calculate_relationship_defining (female_chars : List Character) : Rat :=
  if female_chars.isEmpty then 0
  else
    let relationship_focused := (female_chars.filter
      (fun c => !c.relationships.isEmpty && c.professions.isEmpty)).length
    ((relationship_focused : Nat) : Rat) / (female_chars.length : Nat) * 100

/-- `_calculate_dialogue_imbalance`. -/
def calculate_dialogue_imbalance (female_chars male_chars : List Character) : Rat :=
  if female_chars.isEmpty || male_chars.isEmpty then 0
  else
    let total_female_dialogue := (female_chars.map (fun c => c.dialogue_count)).sum
    let total_male_dialogue := (male_chars.map (fun c => c.dialogue_count)).sum
    let total_dialogue := total_female_dialogue + total_male_dialogue
    if total_dialogue = 0 then 0
    else
      let female_dialogue_ratio : Rat := (total_female_dialogue : Nat) / (total_dialogue : Nat)
      let expected_ratio : Rat :=
        (female_chars.length : Nat) / ((female_chars.length + male_chars.length : Nat) : Nat)
      max 0 ((expected_ratio - female_dialogue_ratio) * 100)

/-- `_calculate_screen_time_imbalance`. -/
def calculate_screen_time_imbalance (female_chars male_chars : List Character) : Rat :=
  if female_chars.isEmpty || male_chars.isEmpty then 0
  else
    let avg_female := np_mean (female_chars.map (fun c => c.screen_time))
    let avg_male := np_mean (male_chars.map (fun c => c.screen_time))
    max 0 ((avg_male - avg_female) * 2)

/-- `calculate_comprehensive_bias_scores`. -/
def calculate_comprehensive_bias_scores (characters : List Character) : BiasScores :=
  if characters.isEmpty then ⟨0, 0, 0, 0, 0, 0, 0⟩
  else
    let female_chars := characters.filter (fun c => decide (c.gender = "female"))
    let male_chars := characters.filter (fun c => decide (c.gender = "male"))
    let occupation_gap := calculate_occupation_gap female_chars male_chars
    let agency_gap := calculate_agency_gap female_chars male_chars
    let appearance_focus := calculate_appearance_focus female_chars male_chars
    let relationship_defining := calculate_relationship_defining female_chars
    let dialogue_imbalance := calculate_dialogue_imbalance female_chars male_chars
    let screen_time_imbalance := calculate_screen_time_imbalance female_chars male_chars
    let overall := np_mean [occupation_gap, agency_gap, appearance_focus,
      relationship_defining, dialogue_imbalance, screen_time_imbalance]
    ⟨occupation_gap, agency_gap, appearance_focus, relationship_defining,
      dialogue_imbalance, screen_time_imbalance, overall⟩

/-! ### Spec-side closed forms (§4.2 of the specification) -/

/-- Female subset used by the scorer. -/
def femaleOf (chars : List Character) : List Character :=
  chars.filter (fun c => decide (c.gender = "female"))

/-- Male subset used by the scorer. -/
def maleOf (chars : List Character) : List Character :=
  chars.filter (fun c => decide (c.gender = "male"))

/-- Spec formula: `occupationGap = max(0,(maleProfRate − femaleProfRate)×100)`,
male denominator `max(|male|,1)`, zero when the female subset is empty. -/
def spec_occupation_gap (chars : List Character) : Rat :=
  let f := femaleOf chars
  let m := maleOf chars
  if f.isEmpty then 0
  else max 0 ((((m.filter (fun c => !c.professions.isEmpty)).length : Nat) / (max m.length 1 : Nat)
    - ((f.filter (fun c => !c.professions.isEmpty)).length : Nat) / (f.length : Nat)) * 100)

/-- Spec formula: `agencyGap = max(0,(meanMaleAgency − meanFemaleAgency)×10)`,
mean male agency defaulting to 5 on an empty male subset. -/
def spec_agency_gap (chars : List Character) : Rat :=
  let f := femaleOf chars
  let m := maleOf chars
  if f.isEmpty then 0
  else max 0 (((if m.isEmpty then 5 else np_mean (m.map (fun c => (c.agency_level : Rat))))
    - np_mean (f.map (fun c => (c.agency_level : Rat)))) * 10)

/-- Spec formula: `appearanceFocus = max(0,(meanFemaleApp − meanMaleApp)×25)`,
mean male appearance defaulting to 0 on an empty male subset. -/
def spec_appearance_focus (chars : List Character) : Rat :=
  let f := femaleOf chars
  let m := maleOf chars
  if f.isEmpty then 0
  else max 0 ((np_mean (f.map (fun c => (c.appearance_descriptions.length : Rat)))
    - (if m.isEmpty then 0 else np_mean (m.map (fun c => (c.appearance_descriptions.length : Rat))))) * 25)

/-- Spec formula: share of female entities with ≥1 relationship and 0
professions, ×100. -/
def spec_relationship_defining (chars : List Character) : Rat :=
  let f := femaleOf chars
  if f.isEmpty then 0
  else ((f.filter (fun c => !c.relationships.isEmpty && c.professions.isEmpty)).length : Nat)
    / (f.length : Nat) * 100

/-- Spec formula: `max(0,(expectedFemaleShare − actualFemaleShare)×100)`,
zero when a subset or the total dialogue is empty. -/
def spec_dialogue_imbalance (chars : List Character) : Rat :=
  let f := femaleOf chars
  let m := maleOf chars
  if f.isEmpty || m.isEmpty then 0
  else
    let tf := (f.map (fun c => c.dialogue_count)).sum
    let tm := (m.map (fun c => c.dialogue_count)).sum
    if tf + tm = 0 then 0
    else max 0 (((f.length : Nat) / ((f.length + m.length : Nat) : Nat)
      - (tf : Nat) / ((tf + tm : Nat) : Nat)) * 100)

/-- Spec formula: `max(0,(meanMaleScreenTime − meanFemaleScreenTime)×2)`. -/
def spec_screen_time_imbalance (chars : List Character) : Rat :=
  let f := femaleOf chars
  let m := maleOf chars
  if f.isEmpty || m.isEmpty then 0
  else max 0 ((np_mean (m.map (fun c => c.screen_time))
    - np_mean (f.map (fun c => c.screen_time))) * 2)

/-! ### Theorems about the detector -/

/-- Helper: the scorer returns the all-zero record whenever no character
has inferred gender `female`. -/
theorem scores_zero_of_no_female_aux (chars : List Character)
    (h : ∀ c ∈ chars, c.gender ≠ "female") :
    calculate_comprehensive_bias_scores chars = ⟨0, 0, 0, 0, 0, 0, 0⟩ := by
  have hf : chars.filter (fun c => decide (c.gender = "female")) = [] :=
    List.filter_eq_nil_iff.mpr (fun a ha => by simp [h a ha])
  unfold calculate_comprehensive_bias_scores
  cases hc : chars.isEmpty with
  | true => simp
  | false =>
    simp only [hc, Bool.false_eq_true, if_false, hf]
    simp [calculate_occupation_gap, calculate_agency_gap, calculate_appearance_focus,
      calculate_relationship_defining, calculate_dialogue_imbalance,
      calculate_screen_time_imbalance, np_mean]

/-- C1: with no female-inferred character, every dimension and the overall
score of `calculate_comprehensive_bias_scores` are zero. -/
theorem bias_scores_zero_of_no_female (chars : List Character)
    (h : ∀ c ∈ chars, c.gender ≠ "female") :
    calculate_comprehensive_bias_scores chars = ⟨0, 0, 0, 0, 0, 0, 0⟩ :=
  scores_zero_of_no_female_aux chars h

/-- Witness for C1 at a concrete one-male character list. -/
theorem bias_scores_zero_of_no_female_witness :
    (∀ c ∈ [(⟨lc "Raj", "male", [], [], 5, [], 0, 0⟩ : Character)], c.gender ≠ "female") ∧
    calculate_comprehensive_bias_scores [⟨lc "Raj", "male", [], [], 5, [], 0, 0⟩]
      = ⟨0, 0, 0, 0, 0, 0, 0⟩ :=
  ⟨by decide, bias_scores_zero_of_no_female _ (by decide)⟩

/-- C2: the `overall` field is the exact arithmetic mean of the six
dimensions of the same result, and each dimension equals its spec
closed-form formula on the input character list. -/
theorem bias_scores_closed_form (chars : List Character) :
    (calculate_comprehensive_bias_scores chars).overall
      = ((calculate_comprehensive_bias_scores chars).occupation_gap
        + (calculate_comprehensive_bias_scores chars).agency_gap
        + (calculate_comprehensive_bias_scores chars).appearance_focus
        + (calculate_comprehensive_bias_scores chars).relationship_defining
        + (calculate_comprehensive_bias_scores chars).dialogue_imbalance
        + (calculate_comprehensive_bias_scores chars).screen_time_imbalance) / 6
    ∧ (calculate_comprehensive_bias_scores chars).occupation_gap = spec_occupation_gap chars
    ∧ (calculate_comprehensive_bias_scores chars).agency_gap = spec_agency_gap chars
    ∧ (calculate_comprehensive_bias_scores chars).appearance_focus = spec_appearance_focus chars
    ∧ (calculate_comprehensive_bias_scores chars).relationship_defining
        = spec_relationship_defining chars
    ∧ (calculate_comprehensive_bias_scores chars).dialogue_imbalance
        = spec_dialogue_imbalance chars
    ∧ (calculate_comprehensive_bias_scores chars).screen_time_imbalance
        = spec_screen_time_imbalance chars := by
  cases hc : chars.isEmpty with
  | true =>
    have hnil : chars = [] := by
      cases chars with
      | nil => rfl
      | cons a l => simp at hc
    subst hnil
    simp [calculate_comprehensive_bias_scores, spec_occupation_gap, spec_agency_gap,
      spec_appearance_focus, spec_relationship_defining, spec_dialogue_imbalance,
      spec_screen_time_imbalance, femaleOf, maleOf]
  | false =>
    unfold calculate_comprehensive_bias_scores
    simp only [hc, Bool.false_eq_true, if_false]
    refine ⟨?_, ?_, ?_, ?_, ?_, ?_, ?_⟩
    · show np_mean [_, _, _, _, _, _] = _
      simp [np_mean]
      ring
    · show calculate_occupation_gap _ _ = _
      unfold calculate_occupation_gap spec_occupation_gap femaleOf maleOf
      rfl
    · show calculate_agency_gap _ _ = _
      unfold calculate_agency_gap spec_agency_gap femaleOf maleOf
      rfl
    · show calculate_appearance_focus _ _ = _
      unfold calculate_appearance_focus spec_appearance_focus femaleOf maleOf
      rfl
    · show calculate_relationship_defining _ = _
      unfold calculate_relationship_defining spec_relationship_defining femaleOf
      rfl
    · show calculate_dialogue_imbalance _ _ = _
      unfold calculate_dialogue_imbalance spec_dialogue_imbalance femaleOf maleOf
      rfl
    · show calculate_screen_time_imbalance _ _ = _
      unfold calculate_screen_time_imbalance spec_screen_time_imbalance femaleOf maleOf
      rfl

/-- C8: with an empty male subset and a non-empty female subset the scorer
uses male profession rate 0 (denominator `max(|male|,1)`), default mean
male agency 5, and default mean male appearance count 0. -/
theorem scorer_defaults_when_no_male (chars : List Character)
    (hm : maleOf chars = [])
    (hf : femaleOf chars ≠ []) :
    (calculate_comprehensive_bias_scores chars).occupation_gap
      = max 0 ((0 - ((femaleOf chars).filter (fun c => !c.professions.isEmpty)).length
          / ((femaleOf chars).length : Rat)) * 100)
    ∧ (calculate_comprehensive_bias_scores chars).agency_gap
      = max 0 ((5 - np_mean ((femaleOf chars).map (fun c => (c.agency_level : Rat)))) * 10)
    ∧ (calculate_comprehensive_bias_scores chars).appearance_focus
      = max 0 ((np_mean ((femaleOf chars).map (fun c => (c.appearance_descriptions.length : Rat)))
          - 0) * 25) := by
  have hne : chars ≠ [] := by
    intro h
    exact hf (by simp [femaleOf, h])
  have hc : chars.isEmpty = false := by
    cases chars with
    | nil => exact absurd rfl hne
    | cons a l => rfl
  have hfe : (femaleOf chars).isEmpty = false := by
    cases hx : femaleOf chars with
    | nil => exact absurd hx hf
    | cons a l => rfl
  unfold calculate_comprehensive_bias_scores
  simp only [hc, Bool.false_eq_true, if_false]
  refine ⟨?_, ?_, ?_⟩
  · show calculate_occupation_gap (femaleOf chars) (maleOf chars) = _
    unfold calculate_occupation_gap
    rw [hm]
    simp [hfe]
  · show calculate_agency_gap (femaleOf chars) (maleOf chars) = _
    unfold calculate_agency_gap
    rw [hm]
    simp [hfe]
  · show calculate_appearance_focus (femaleOf chars) (maleOf chars) = _
    unfold calculate_appearance_focus
    rw [hm]
    simp [hfe]

/-- Witness for C8 at a concrete one-female character list. -/
theorem scorer_defaults_when_no_male_witness :
    maleOf [(⟨lc "Priya", "female", [], [], 5, [], 0, 0⟩ : Character)] = [] ∧
    femaleOf [(⟨lc "Priya", "female", [], [], 5, [], 0, 0⟩ : Character)] ≠ [] ∧
    ((calculate_comprehensive_bias_scores [(⟨lc "Priya", "female", [], [], 5, [], 0, 0⟩ : Character)]).occupation_gap
      = max 0 ((0 - ((femaleOf [(⟨lc "Priya", "female", [], [], 5, [], 0, 0⟩ : Character)]).filter (fun c => !c.professions.isEmpty)).length
          / ((femaleOf [(⟨lc "Priya", "female", [], [], 5, [], 0, 0⟩ : Character)]).length : Rat)) * 100)
    ∧ (calculate_comprehensive_bias_scores [(⟨lc "Priya", "female", [], [], 5, [], 0, 0⟩ : Character)]).agency_gap
      = max 0 ((5 - np_mean ((femaleOf [(⟨lc "Priya", "female", [], [], 5, [], 0, 0⟩ : Character)]).map (fun c => (c.agency_level : Rat)))) * 10)
    ∧ (calculate_comprehensive_bias_scores [(⟨lc "Priya", "female", [], [], 5, [], 0, 0⟩ : Character)]).appearance_focus
      = max 0 ((np_mean ((femaleOf [(⟨lc "Priya", "female", [], [], 5, [], 0, 0⟩ : Character)]).map (fun c => (c.appearance_descriptions.length : Rat)))
          - 0) * 25)) :=
  ⟨by decide, by decide,
    scorer_defaults_when_no_male _ (by decide) (by decide)⟩

/-- Folding `+1` over the elements satisfying `p` counts them. -/
theorem foldl_add_count (l : List (List Char)) (p : List Char → Bool) (init : Int) :
    l.foldl (fun acc v => if p v then acc + 1 else acc) init
      = init + ((l.filter p).length : Int) := by
  induction l generalizing init with
  | nil => simp
  | cons a l ih =>
    cases hp : p a with
    | true => simp [List.foldl_cons, hp, ih]; ring
    | false => simp [List.foldl_cons, hp, ih]

/-- Folding `-1` over the elements satisfying `p` subtracts their count. -/
theorem foldl_sub_count (l : List (List Char)) (p : List Char → Bool) (init : Int) :
    l.foldl (fun acc v => if p v then acc - 1 else acc) init
      = init - ((l.filter p).length : Int) := by
  induction l generalizing init with
  | nil => simp
  | cons a l ih =>
    cases hp : p a with
    | true => simp [List.foldl_cons, hp, ih]; ring
    | false => simp [List.foldl_cons, hp, ih]

/-- C9: the agency level is 5 plus the number of distinct active-verb
keywords present minus the number of distinct passive-phrase keywords
present, clamped to [1,10]; consequently every character produced by
`analyze_character` has an agency level in [1,10]. -/
theorem agency_level_closed_form_and_bounds :
    (∀ text : List Char,
      calculate_agency_level text
        = max 1 (min 10 (5 + ((active_verbs.filter (fun v => inStr v (lowerL text))).length : Int)
            - ((passive_indicators.filter (fun v => inStr v (lowerL text))).length : Int)))
      ∧ 1 ≤ calculate_agency_level text ∧ calculate_agency_level text ≤ 10)
    ∧ ∀ (name text : List Char) (c : Character),
        analyze_character name text = some c →
        1 ≤ c.agency_level ∧ c.agency_level ≤ 10 := by
  have hmain : ∀ text : List Char,
      calculate_agency_level text
        = max 1 (min 10 (5 + ((active_verbs.filter (fun v => inStr v (lowerL text))).length : Int)
            - ((passive_indicators.filter (fun v => inStr v (lowerL text))).length : Int))
          ) := by
    intro text
    simp only [calculate_agency_level]
    rw [foldl_add_count, foldl_sub_count]
  have hbounds : ∀ text : List Char,
      1 ≤ calculate_agency_level text ∧ calculate_agency_level text ≤ 10 := by
    intro text
    simp only [calculate_agency_level]
    constructor
    · exact le_max_left _ _
    · exact max_le (by norm_num) (min_le_left _ _)
  refine ⟨fun text => ⟨hmain text, hbounds text⟩, ?_⟩
  intro name text c h
  unfold analyze_character at h
  by_cases he : ((splitSentences text).filter
      (fun s => inStr (lowerL name) (lowerL s))).isEmpty
  · simp only [he, if_true] at h
    exact absurd h (by simp)
  · simp only [he, if_false] at h
    have := hbounds (List.intercalate (lc " ")
      ((splitSentences text).filter (fun s => inStr (lowerL name) (lowerL s))))
    rw [← Option.some.injEq] at h
    cases h
    exact this

/-- Witness for C9: a concrete extracted character whose agency level is 5. -/
theorem agency_level_closed_form_and_bounds_witness :
    analyze_character (lc "Aa") (lc "Aa")
      = some ⟨lc "Aa", "unknown", [], [], 5, [], 1, estimate_screen_time (lc "Aa") (lc "Aa")⟩
    ∧ (1 : Int) ≤ (⟨lc "Aa", "unknown", [], [], 5, [], 1,
        estimate_screen_time (lc "Aa") (lc "Aa")⟩ : Character).agency_level
    ∧ (⟨lc "Aa", "unknown", [], [], 5, [], 1,
        estimate_screen_time (lc "Aa") (lc "Aa")⟩ : Character).agency_level ≤ 10 := by
  have h : analyze_character (lc "Aa") (lc "Aa")
      = some ⟨lc "Aa", "unknown", [], [], 5, [], 1,
          estimate_screen_time (lc "Aa") (lc "Aa")⟩ := by
    unfold analyze_character
    have hif : (((splitSentences (lc "Aa")).filter
        (fun s => inStr (lowerL (lc "Aa")) (lowerL s)))).isEmpty = false := by decide
    simp only [hif, Bool.false_eq_true, if_false, Option.some.injEq,
      Character.mk.injEq]
    exact ⟨by decide, by decide, by decide, by decide, by decide, by decide,
      by decide⟩
  exact ⟨h, (agency_level_closed_form_and_bounds.2 _ _ _ h).1,
    (agency_level_closed_form_and_bounds.2 _ _ _ h).2⟩

/-! ### The Sonia Saxena test vector (C6) -/

/-- The fixture text from §8 of the specification. -/
def sonia_text : List Char :=
  lc "Sonia Saxena, daughter of Mr Saxena, is beautiful and comes from a wealthy family"

/-- The single character the code actually extracts from `sonia_text`. -/
def saxena_character : Character :=
  ⟨lc "Saxena", "unknown", [], [lc "daughter of"], 5, [lc "beautiful"], 0, 100 / 7⟩

/-- `analyze_character` on the lone surviving candidate `"Saxena"`. -/
theorem sonia_analyze_eq :
    analyze_character (lc "Saxena") sonia_text = some saxena_character := by
  unfold analyze_character
  have hif : (((splitSentences sonia_text).filter
      (fun s => inStr (lowerL (lc "Saxena")) (lowerL s)))).isEmpty = false := by decide
  simp only [hif, Bool.false_eq_true, if_false, Option.some.injEq, saxena_character,
    Character.mk.injEq]
  refine ⟨by decide, by decide, by decide, by decide, by decide, by decide,
    by decide, ?_⟩
  show estimate_screen_time (lc "Saxena") sonia_text = 100 / 7
  unfold estimate_screen_time
  have h1 : countSub (lowerL (lc "Saxena")) (lowerL sonia_text) = 2 := by decide
  have h2 : wsTokens sonia_text = 14 := by decide
  rw [h1, h2]
  norm_num

/-- The extraction result on the fixture text. -/
theorem sonia_extract_eq :
    extract_characters_advanced sonia_text = [saxena_character] := by
  have hpn : (potential_names sonia_text).take 10 = [lc "Saxena"] := by decide
  unfold extract_characters_advanced
  rw [hpn]
  simp [List.filterMap_cons, sonia_analyze_eq]

/-- The scores on the fixture text: all zero (no female-inferred entity). -/
theorem sonia_scores_eq :
    calculate_comprehensive_bias_scores (extract_characters_advanced sonia_text)
      = ⟨0, 0, 0, 0, 0, 0, 0⟩ := by
  rw [sonia_extract_eq]
  exact scores_zero_of_no_female_aux _ (by decide)

/-- C6 counterexample: on the fixture text the extractor does not produce a
female `Sonia Saxena`, and `relationshipDefining` is not 100. -/
theorem sonia_test_vector_refuted :
    (extract_characters_advanced sonia_text).map (fun c => (c.name, c.gender))
      ≠ [(lc "Sonia Saxena", "female")]
    ∧ (calculate_comprehensive_bias_scores
        (extract_characters_advanced sonia_text)).relationship_defining ≠ 100 := by
  constructor
  · rw [sonia_extract_eq]
    decide
  · rw [sonia_scores_eq]
    norm_num

/-- C6 amended: extraction on the fixture yields exactly one character,
named `Saxena`, with inferred gender `unknown` (the lone ≥2-occurrence
candidate misses the gazetteer and the context has no pronouns), no
professions, the relationship marker `daughter of`, the appearance
descriptor `beautiful`, and the resulting `relationshipDefining` is 0. -/
theorem sonia_test_vector_actual :
    extract_characters_advanced sonia_text = [saxena_character]
    ∧ saxena_character.gender = "unknown"
    ∧ saxena_character.professions = []
    ∧ saxena_character.relationships = [lc "daughter of"]
    ∧ saxena_character.appearance_descriptions = [lc "beautiful"]
    ∧ (calculate_comprehensive_bias_scores
        (extract_characters_advanced sonia_text)).relationship_defining = 0 := by
  refine ⟨sonia_extract_eq, rfl, rfl, rfl, rfl, ?_⟩
  rw [sonia_scores_eq]

/-! ### C10: the `None` branch of `_analyze_character` is unreachable -/

/-- An uppercase letter is not a sentence terminator. -/
theorem not_term_of_upper {c : Char} (h : isUpperChar c = true) :
    isTermChar c = false := by
  by_cases h1 : c = '.'
  · exact absurd (h1 ▸ h) (by decide)
  by_cases h2 : c = '!'
  · exact absurd (h2 ▸ h) (by decide)
  by_cases h3 : c = '?'
  · exact absurd (h3 ▸ h) (by decide)
  simp [isTermChar, h1, h2, h3]

/-- A lowercase letter is not a sentence terminator. -/
theorem not_term_of_lower {c : Char} (h : isLowerChar c = true) :
    isTermChar c = false := by
  by_cases h1 : c = '.'
  · exact absurd (h1 ▸ h) (by decide)
  by_cases h2 : c = '!'
  · exact absurd (h2 ▸ h) (by decide)
  by_cases h3 : c = '?'
  · exact absurd (h3 ▸ h) (by decide)
  simp [isTermChar, h1, h2, h3]

/-- Splitting with a pending accumulator prepends it to the first piece. -/
theorem splitGo_acc (cs : List Char) : ∀ acc : List Char,
    ∃ h t, splitGo false [] cs = h :: t
      ∧ splitGo false acc cs = (acc.reverse ++ h) :: t := by
  induction cs with
  | nil =>
    intro acc
    exact ⟨[], [], rfl, by simp [splitGo]⟩
  | cons c cs ih =>
    intro acc
    cases hterm : isTermChar c with
    | true =>
      exact ⟨[], splitGo true [] cs, by simp [splitGo, hterm],
        by simp [splitGo, hterm]⟩
    | false =>
      obtain ⟨h, t, h1, h2⟩ := ih [c]
      obtain ⟨h', t', h1', h2'⟩ := ih (c :: acc)
      rw [h1] at h1'
      injection h1' with e1 e2
      subst e1
      subst e2
      refine ⟨c :: h, t, ?_, ?_⟩
      · show splitGo false [] (c :: cs) = (c :: h) :: t
        simp only [splitGo, hterm, Bool.false_eq_true, if_false]
        rw [h2]
        simp
      · show splitGo false acc (c :: cs) = (acc.reverse ++ (c :: h)) :: t
        simp only [splitGo, hterm, Bool.false_eq_true, if_false]
        rw [h2']
        simp

/-- After a terminator, splitting continues on the de-terminated rest. -/
theorem splitGo_true_eq (cs : List Char) :
    splitGo true [] cs = splitSentences (cs.dropWhile isTermChar) := by
  induction cs with
  | nil => rfl
  | cons c cs ih =>
    cases hterm : isTermChar c with
    | true => simpa [splitGo, hterm, List.dropWhile_cons] using ih
    | false => simp [splitGo, splitSentences, hterm, List.dropWhile_cons]

/-- A terminator-free non-empty infix survives dropping a leading
terminator run. -/
theorem infix_dropWhile_term {w : List Char} (hw : w ≠ [])
    (hnt : ∀ c ∈ w, isTermChar c = false) :
    ∀ {l : List Char}, w <:+: l → w <:+: l.dropWhile isTermChar := by
  intro l
  induction l with
  | nil =>
    intro h
    rw [List.infix_nil] at h
    exact absurd h hw
  | cons a l ih =>
    intro h
    cases ha : isTermChar a with
    | false => simpa [List.dropWhile_cons, ha] using h
    | true =>
      have h' : w <:+: l := by
        rcases List.infix_cons_iff.mp h with hpre | hinf
        · cases w with
          | nil => exact absurd rfl hw
          | cons b w' =>
            rw [List.cons_prefix_cons] at hpre
            have hb := hnt b (by simp)
            rw [hpre.1, ha] at hb
            cases hb
        · exact hinf
      simpa [List.dropWhile_cons, ha] using ih h'

/-- A terminator-free prefix of the text is a prefix of the first piece of
the sentence split. -/
theorem prefix_head_piece : ∀ (w cs : List Char), w <+: cs →
    (∀ c ∈ w, isTermChar c = false) →
    ∃ h t, splitSentences cs = h :: t ∧ w <+: h := by
  intro w
  induction w with
  | nil =>
    intro cs _ _
    obtain ⟨h, t, h1, _⟩ := splitGo_acc cs []
    exact ⟨h, t, h1, List.nil_prefix⟩
  | cons d w' ih =>
    intro cs hpre hnt
    cases cs with
    | nil =>
      rw [List.prefix_nil] at hpre
      cases hpre
    | cons c cs' =>
      rw [List.cons_prefix_cons] at hpre
      obtain ⟨rfl, hw'⟩ := hpre
      have hterm : isTermChar d = false := hnt d (by simp)
      obtain ⟨h, t, h1, hp⟩ := ih cs' hw' (fun x hx => hnt x (by simp [hx]))
      obtain ⟨h2, t2, h21, h22⟩ := splitGo_acc cs' [d]
      rw [show splitGo false [] cs' = splitSentences cs' from rfl, h1] at h21
      injection h21 with e1 e2
      subst e1
      subst e2
      refine ⟨d :: h, t, ?_, List.cons_prefix_cons.mpr ⟨rfl, hp⟩⟩
      show splitGo false [] (d :: cs') = (d :: h) :: t
      simp only [splitGo, hterm, Bool.false_eq_true, if_false]
      rw [h22]
      simp

/-- Core lemma for C10: every terminator-free non-empty infix of the text
is an infix of some piece of the `[.!?]+` split. -/
theorem infix_mem_piece : ∀ (n : Nat) (cs w : List Char), cs.length ≤ n →
    w ≠ [] → (∀ c ∈ w, isTermChar c = false) → w <:+: cs →
    ∃ p ∈ splitSentences cs, w <:+: p := by
  intro n
  induction n with
  | zero =>
    intro cs w hlen hw _ hinf
    have hnil : cs = [] := List.length_eq_zero.mp (Nat.le_zero.mp hlen)
    subst hnil
    rw [List.infix_nil] at hinf
    exact absurd hinf hw
  | succ n ih =>
    intro cs w hlen hw hnt hinf
    cases cs with
    | nil =>
      rw [List.infix_nil] at hinf
      exact absurd hinf hw
    | cons c cs' =>
      rcases List.infix_cons_iff.mp hinf with hpre | hinf'
      · obtain ⟨h, t, h1, hp⟩ := prefix_head_piece w (c :: cs') hpre hnt
        exact ⟨h, by rw [h1]; exact List.mem_cons_self _ _, hp.isInfix⟩
      · cases hterm : isTermChar c with
        | false =>
          have hlen' : cs'.length ≤ n := by
            simpa using Nat.le_of_succ_le_succ (by simpa using hlen)
          obtain ⟨p, hmem, hpi⟩ := ih cs' w hlen' hw hnt hinf'
          obtain ⟨h, t, h1, h2⟩ := splitGo_acc cs' [c]
          have hsplit : splitSentences (c :: cs') = (c :: h) :: t := by
            show splitGo false [] (c :: cs') = _
            simp only [splitGo, hterm, Bool.false_eq_true, if_false]
            rw [h2]
            simp
          rw [show splitSentences cs' = splitGo false [] cs' from rfl, h1] at hmem
          rcases List.mem_cons.mp hmem with rfl | hmem'
          · exact ⟨c :: p, by rw [hsplit]; exact List.mem_cons_self _ _,
              List.infix_cons hpi⟩
          · exact ⟨p, by rw [hsplit]; exact List.mem_cons_of_mem _ hmem', hpi⟩
        | true =>
          have hd : w <:+: cs'.dropWhile isTermChar :=
            infix_dropWhile_term hw hnt hinf'
          have hlen' : (cs'.dropWhile isTermChar).length ≤ n :=
            le_trans (List.dropWhile_suffix _).length_le
              (by simpa using Nat.le_of_succ_le_succ (by simpa using hlen))
          obtain ⟨p, hmem, hpi⟩ := ih (cs'.dropWhile isTermChar) w hlen' hw hnt hd
          have hsplit : splitSentences (c :: cs')
              = [] :: splitSentences (cs'.dropWhile isTermChar) := by
            show splitGo false [] (c :: cs') = _
            simp only [splitGo, hterm, if_true]
            exact congrArg ([] :: ·) (splitGo_true_eq cs')
          exact ⟨p, by rw [hsplit]; exact List.mem_cons_of_mem _ hmem, hpi⟩

/-- Every token produced by the capitalized-word scan is a non-empty,
terminator-free infix of the scanned text. -/
theorem capWordsF_sound : ∀ (fuel : Nat) (prevW : Bool) (cs w : List Char),
    w ∈ capWordsF fuel prevW cs →
    w ≠ [] ∧ (∀ c ∈ w, isTermChar c = false) ∧ w <:+: cs := by
  intro fuel
  induction fuel with
  | zero =>
    intro prevW cs w h
    simp [capWordsF] at h
  | succ fuel ih =>
    intro prevW cs w hmem
    cases cs with
    | nil => simp [capWordsF] at hmem
    | cons c cs' =>
      have hstep : ∀ pw, w ∈ capWordsF fuel pw cs' →
          w ≠ [] ∧ (∀ x ∈ w, isTermChar x = false) ∧ w <:+: c :: cs' := by
        intro pw hw
        obtain ⟨h1, h2, h3⟩ := ih pw cs' w hw
        exact ⟨h1, h2, List.infix_cons h3⟩
      by_cases hcond : (!prevW && isUpperChar c) = true
      · by_cases hemp : (cs'.takeWhile isLowerChar).isEmpty = true
        · simp only [capWordsF, hcond, hemp, if_true] at hmem
          exact hstep _ hmem
        · by_cases hbd : boundaryOk (cs'.dropWhile isLowerChar) = true
          · simp only [capWordsF, hcond, hemp, hbd, Bool.false_eq_true, if_true,
              if_false, List.mem_cons] at hmem
            rcases hmem with rfl | hmem'
            · refine ⟨by simp, ?_, ?_⟩
              · intro x hx
                rcases List.mem_cons.mp hx with rfl | hx'
                · exact not_term_of_upper (Bool.and_elim_right hcond)
                · exact not_term_of_lower (List.mem_takeWhile_imp hx')
              · exact (List.cons_prefix_cons.mpr
                  ⟨rfl, List.takeWhile_prefix _⟩).isInfix
            · obtain ⟨h1, h2, h3⟩ := ih true (cs'.dropWhile isLowerChar) w hmem'
              exact ⟨h1, h2,
                h3.trans ((List.dropWhile_suffix _).isInfix.trans
                  (List.infix_cons (List.infix_refl _)))⟩
          · simp only [capWordsF, hcond, hemp, hbd, Bool.false_eq_true, if_true,
              if_false] at hmem
            exact hstep _ hmem
      · simp only [capWordsF, hcond, Bool.false_eq_true, if_false] at hmem
        exact hstep _ hmem

/-- Membership in the deduplicated list implies membership in the original. -/
theorem mem_firstDedupAux : ∀ (l seen : List (List Char)) (x : List Char),
    x ∈ firstDedupAux seen l → x ∈ l := by
  intro l
  induction l with
  | nil =>
    intro seen x h
    simp [firstDedupAux] at h
  | cons a l ih =>
    intro seen x h
    by_cases ha : a ∈ seen
    · simp only [firstDedupAux, ha, if_true] at h
      exact List.mem_cons_of_mem _ (ih seen x h)
    · simp only [firstDedupAux, ha, if_false, List.mem_cons] at h
      rcases h with rfl | h'
      · exact List.mem_cons_self _ _
      · exact List.mem_cons_of_mem _ (ih _ x h')

/-- The Boolean substring test agrees with `List.IsInfix`. -/
theorem inStr_iff {needle hay : List Char} :
    inStr needle hay = true ↔ needle <:+: hay := by
  unfold inStr
  rw [List.any_eq_true]
  constructor
  · rintro ⟨t, ht, hp⟩
    rw [List.mem_tails] at ht
    rw [List.isPrefixOf_iff_prefix] at hp
    exact List.infix_iff_prefix_suffix.mpr ⟨t, hp, ht⟩
  · intro h
    obtain ⟨t, hp, ht⟩ := List.infix_iff_prefix_suffix.mp h
    exact ⟨t, (List.mem_tails _ _).mpr ht, List.isPrefixOf_iff_prefix.mpr hp⟩

/-- Lower-casing preserves the infix relation. -/
theorem infix_lowerL {w s : List Char} (h : w <:+: s) :
    lowerL w <:+: lowerL s := by
  obtain ⟨a, b, rfl⟩ := h
  exact ⟨a.map Char.toLower, b.map Char.toLower, by simp [lowerL]⟩

/-- `filterMap` over a list on which `f` never returns `none` keeps the
length. -/
theorem filterMap_length_of_all_some {α β : Type} (f : α → Option β) :
    ∀ l : List α, (∀ a ∈ l, ∃ b, f a = some b) →
    (l.filterMap f).length = l.length := by
  intro l
  induction l with
  | nil => intro _; rfl
  | cons a l ih =>
    intro h
    obtain ⟨b, hb⟩ := h a (List.mem_cons_self _ _)
    rw [List.filterMap_cons, hb]
    simp only [List.length_cons]
    rw [ih (fun x hx => h x (List.mem_cons_of_mem _ hx))]

/-- For every retained candidate name, `_analyze_character` succeeds: the
candidate token is terminator-free, hence lies inside one sentence piece. -/
theorem analyze_character_some_of_mem_potential (text n : List Char)
    (hn : n ∈ potential_names text) :
    ∃ c, analyze_character n text = some c := by
  have h1 : n ∈ find_capitalized_words text := by
    unfold potential_names at hn
    exact mem_firstDedupAux _ _ _ (List.mem_of_mem_filter hn)
  obtain ⟨hne, hnt, hinf⟩ := capWordsF_sound _ _ _ _ h1
  obtain ⟨p, hp, hinfp⟩ :=
    infix_mem_piece text.length text n (le_refl _) hne hnt hinf
  have hin : inStr (lowerL n) (lowerL p) = true := inStr_iff.mpr (infix_lowerL hinfp)
  unfold analyze_character
  have hne' : (((splitSentences text).filter
      (fun s => inStr (lowerL n) (lowerL s)))).isEmpty = false := by
    have hmem : p ∈ (splitSentences text).filter
        (fun s => inStr (lowerL n) (lowerL s)) := List.mem_filter.mpr ⟨hp, hin⟩
    cases hx : (splitSentences text).filter (fun s => inStr (lowerL n) (lowerL s)) with
    | nil => rw [hx] at hmem; cases hmem
    | cons a l => rfl
  simp only [hne', Bool.false_eq_true, if_false]
  exact ⟨_, rfl⟩

/-- C10: extraction returns exactly one `Character` per retained candidate,
i.e. `min(10, number of qualifying candidates)` characters — the `None`
branch of `_analyze_character` is unreachable from
`extract_characters_advanced`. -/
theorem extraction_count_eq_min (text : List Char) :
    (extract_characters_advanced text).length
      = min 10 (potential_names text).length := by
  unfold extract_characters_advanced
  rw [filterMap_length_of_all_some]
  · exact List.length_take _ _
  · intro n hn
    exact analyze_character_some_of_mem_potential text n (List.mem_of_mem_take hn)

/-! ### Rewrite engine (`bias_rewriter.py`)

Randomness (`random.choice`) is modelled by an explicit choice function
`pick : List (List Char) → List Char` passed to every randomized step, as
§9 of the specification prescribes for a reimplementation. -/

/-- Result of a rewrite (`@dataclass RewriteResult`). -/
structure RewriteResult where
  original_text : List Char
  rewritten_text : List Char
  quality_score : Rat
  bias_reduction : Rat
  improvements : List (List Char)
  rewrite_type : String
deriving DecidableEq, Repr

/-- A single-pattern matcher: given the text at the current scan position,
either `none`, or `some (replacementOfMatchedSpan, restAfterMatch)`. -/
def Matcher : Type := List Char → Option (List Char × List Char)

/-- `re.sub(pattern, repl, text)` with no count: replace every
non-overlapping match, resuming after each replaced span (fueled). -/
def subAllF : Nat → Matcher → List Char → List Char
  | 0, _, cs => cs
  | _ + 1, _, [] => []
  | fuel + 1, m, c :: cs =>
    match m (c :: cs) with
    | some (r, rest) => r ++ subAllF fuel m rest
    | none => c :: subAllF fuel m cs

def subAll (m : Matcher) (t : List Char) : List Char := subAllF t.length m t

/-- `re.sub(..., count=1)`: replace only the first match. -/
def subFirstMF : Nat → Matcher → List Char → List Char
  | 0, _, cs => cs
  | _ + 1, _, [] => []
  | fuel + 1, m, c :: cs =>
    match m (c :: cs) with
    | some (r, rest) => r ++ rest
    | none => c :: subFirstMF fuel m cs

def subFirst (m : Matcher) (t : List Char) : List Char := subFirstMF t.length m t

/-- `re.search(pattern, text) is not None`. -/
def searchAnyF : Nat → Matcher → List Char → Bool
  | 0, _, _ => false
  | _ + 1, _, [] => false
  | fuel + 1, m, c :: cs =>
    match m (c :: cs) with
    | some _ => true
    | none => searchAnyF fuel m cs

def searchAny (m : Matcher) (t : List Char) : Bool := searchAnyF t.length m t

/-- Matcher for `lit([A-Z][a-z]+)` where `lit` is a literal ending in a
space (e.g. `beautiful ([A-Z][a-z]+)`), replacement `repl\1`. -/
def matchLitCap (lit repl : List Char) : Matcher := fun cs =>
  if lit.isPrefixOf cs then
    match cs.drop lit.length with
    | [] => none
    | c :: rest =>
      if isUpperChar c then
        let low := rest.takeWhile isLowerChar
        if low.isEmpty then none
        else some (repl ++ c :: low, rest.dropWhile isLowerChar)
      else none
  else none

/-- Matcher for `([A-Z][a-z]+)mid([^stop]+)` (e.g.
`([A-Z][a-z]+) receives ([^.]+)`), replacement `\1replMid\2`. -/
def matchCapMidStop (mid replMid : List Char) (stop : Char) : Matcher := fun cs =>
  match cs with
  | [] => none
  | c :: cs' =>
    if isUpperChar c then
      let low := cs'.takeWhile isLowerChar
      if low.isEmpty then none
      else
        let after := cs'.dropWhile isLowerChar
        if mid.isPrefixOf after then
          let rest := after.drop mid.length
          let g2 := rest.takeWhile (fun d => d != stop)
          if g2.isEmpty then none
          else some ((c :: low) ++ replMid ++ g2, rest.dropWhile (fun d => d != stop))
        else none
    else none

/-- Matcher for `([A-Z][a-z]+),?\s+lit([^,]+)` (e.g.
`([A-Z][a-z]+),?\s+daughter of ([^,]+)`), replacement `\1replMid\2`. -/
def matchCapCommaWsLit (lit replMid : List Char) : Matcher := fun cs =>
  match cs with
  | [] => none
  | c :: cs' =>
    if isUpperChar c then
      let low := cs'.takeWhile isLowerChar
      if low.isEmpty then none
      else
        let after := cs'.dropWhile isLowerChar
        let after2 := match after with
          | ',' :: t => t
          | _ => after
        if (after2.takeWhile isSpaceChar).isEmpty then none
        else
          let rest1 := after2.dropWhile isSpaceChar
          if lit.isPrefixOf rest1 then
            let rest2 := rest1.drop lit.length
            let g2 := rest2.takeWhile (fun d => d != ',')
            if g2.isEmpty then none
            else some ((c :: low) ++ replMid ++ g2, rest2.dropWhile (fun d => d != ','))
          else none
    else none

/-- Matcher for `(\w+),?\s+lit([^,]+)` with a case-insensitive literal
(the `re.IGNORECASE` patterns of `_reduce_relationship_dependency`). -/
def matchWordCommaWsLitG2 (lit replMid : List Char) : Matcher := fun cs =>
  match cs with
  | [] => none
  | c :: cs' =>
    if isWordChar c then
      let g1 := c :: cs'.takeWhile isWordChar
      let after := cs'.dropWhile isWordChar
      let after2 := match after with
        | ',' :: t => t
        | _ => after
      if (after2.takeWhile isSpaceChar).isEmpty then none
      else
        let rest1 := after2.dropWhile isSpaceChar
        if (lowerL lit).isPrefixOf (lowerL rest1) then
          let rest2 := rest1.drop lit.length
          let g2 := rest2.takeWhile (fun d => d != ',')
          if g2.isEmpty then none
          else some (g1 ++ replMid ++ g2, rest2.dropWhile (fun d => d != ','))
        else none
    else none

/-- Matcher for `(\w+)\s+lit` with a case-insensitive literal and no second
group (the `(\w+)\s+belongs to` pattern). -/
def matchWordWsLit (lit replMid : List Char) : Matcher := fun cs =>
  match cs with
  | [] => none
  | c :: cs' =>
    if isWordChar c then
      let g1 := c :: cs'.takeWhile isWordChar
      let after := cs'.dropWhile isWordChar
      if (after.takeWhile isSpaceChar).isEmpty then none
      else
        let rest1 := after.dropWhile isSpaceChar
        if (lowerL lit).isPrefixOf (lowerL rest1) then
          some (g1 ++ replMid, rest1.drop lit.length)
        else none
    else none

/-- Matcher for `(\w+),?\s+lit` with a case-sensitive literal and no second
group (the `(\w+),?\s+daughter of` pattern of `_add_professional_identity`). -/
def matchWordCommaWsLit (lit replMid : List Char) : Matcher := fun cs =>
  match cs with
  | [] => none
  | c :: cs' =>
    if isWordChar c then
      let g1 := c :: cs'.takeWhile isWordChar
      let after := cs'.dropWhile isWordChar
      let after2 := match after with
        | ',' :: t => t
        | _ => after
      if (after2.takeWhile isSpaceChar).isEmpty then none
      else
        let rest1 := after2.dropWhile isSpaceChar
        if lit.isPrefixOf rest1 then
          some (g1 ++ replMid, rest1.drop lit.length)
        else none
    else none

/-- Python `text.replace(old, new, 1)`. -/
def replaceFirstF : Nat → List Char → List Char → List Char → List Char
  | 0, _, _, hay => hay
  | _ + 1, _, _, [] => []
  | fuel + 1, needle, repl, c :: hay =>
    if needle.isPrefixOf (c :: hay) then repl ++ (c :: hay).drop needle.length
    else c :: replaceFirstF fuel needle repl hay

def replaceFirst (needle repl hay : List Char) : List Char :=
  replaceFirstF hay.length needle repl hay

/-- `re.compile(re.escape(word), re.IGNORECASE).sub(repl, text, count=1)`:
case-insensitive first-occurrence replacement of a literal. -/
def subFirstCIF : Nat → List Char → List Char → List Char → List Char
  | 0, _, _, hay => hay
  | _ + 1, _, _, [] => []
  | fuel + 1, needle, repl, c :: hay =>
    if (lowerL needle).isPrefixOf (lowerL (c :: hay)) then
      repl ++ (c :: hay).drop needle.length
    else c :: subFirstCIF fuel needle repl hay

def subFirstCI (needle repl hay : List Char) : List Char :=
  subFirstCIF hay.length needle repl hay

/-- `re.findall(r'[A-Z][a-z]+', text)` (no word boundaries). -/
def capSeqsF : Nat → List Char → List (List Char)
  | 0, _ => []
  | _ + 1, [] => []
  | fuel + 1, c :: cs =>
    if isUpperChar c && !(cs.takeWhile isLowerChar).isEmpty then
      (c :: cs.takeWhile isLowerChar) :: capSeqsF fuel (cs.dropWhile isLowerChar)
    else capSeqsF fuel cs

def cap_seqs (t : List Char) : List (List Char) := capSeqsF t.length t

/-- `len(re.findall(r'[.!?]+', text))`: number of maximal terminator runs. -/
def countRuns (inRun : Bool) : List Char → Nat
  | [] => 0
  | c :: cs =>
    if isTermChar c then (if inRun then 0 else 1) + countRuns true cs
    else countRuns false cs

def sentence_marks (t : List Char) : Nat := countRuns false t

/-- The alternation `\b(?:she|her|daughter|wife|sister)\b` of the
`female_pattern` lookahead. -/
def fem_context_words : List (List Char) :=
  [lc "she", lc "her", lc "daughter", lc "wife", lc "sister"]

def femWordAt (l : List Char) : Bool :=
  fem_context_words.any (fun w => w.isPrefixOf l && boundaryOk (l.drop w.length))

/-- The lookahead `(?=.*\b(?:she|her|daughter|wife|sister)\b)` evaluated
after a group: scan the rest of the line (a `.` does not cross a newline);
`prevW` starts `true` because the group ends in a letter. -/
def hasFemWordF : Nat → Bool → List Char → Bool
  | 0, _, _ => false
  | _ + 1, _, [] => false
  | fuel + 1, prevW, c :: cs =>
    if c = '\n' then false
    else if !prevW && femWordAt (c :: cs) then true
    else hasFemWordF fuel (isWordChar c) cs

/-- `re.search(r'([A-Z][a-z]+)(?=.*\b(?:she|her|daughter|wife|sister)\b)', t)`:
first capitalized group followed (within the line) by a female-context word. -/
def findFemNameF : Nat → List Char → Option (List Char)
  | 0, _ => none
  | _ + 1, [] => none
  | fuel + 1, c :: cs =>
    if isUpperChar c && !(cs.takeWhile isLowerChar).isEmpty
        && hasFemWordF (cs.dropWhile isLowerChar).length true (cs.dropWhile isLowerChar) then
      some (c :: cs.takeWhile isLowerChar)
    else findFemNameF fuel cs

def find_female_name (t : List Char) : Option (List Char) := findFemNameF t.length t

/-- `re.search(r'\b([A-Z][a-z]+)\b', t)`: first capitalized word with
word boundaries. -/
def findCapWordBF : Nat → Bool → List Char → Option (List Char)
  | 0, _, _ => none
  | _ + 1, _, [] => none
  | fuel + 1, prevW, c :: cs =>
    if !prevW && isUpperChar c && !(cs.takeWhile isLowerChar).isEmpty
        && boundaryOk (cs.dropWhile isLowerChar) then
      some (c :: cs.takeWhile isLowerChar)
    else findCapWordBF fuel (isWordChar c) cs

def find_first_cap_word (t : List Char) : Option (List Char) :=
  findCapWordBF t.length false t

/-- `self.rewrite_patterns['occupation_gap']['patterns']`. -/
def occupation_gap_rules : List Matcher :=
  [matchCapCommaWsLit (lc "daughter of ") (lc ", a professional and daughter of "),
   matchCapCommaWsLit (lc "wife of ") (lc ", a working professional and wife of "),
   matchCapCommaWsLit (lc "sister of ") (lc ", a career woman and sister of "),
   matchCapMidStop (lc " belongs to ") (lc " works professionally and belongs to ") '.']

/-- `self.rewrite_patterns['agency_gap']['passive_to_active']`. -/
def agency_gap_rules : List Matcher :=
  [matchCapMidStop (lc " receives ") (lc " chooses to accept ") '.',
   matchCapMidStop (lc " waits for ") (lc " actively seeks ") '.',
   matchCapMidStop (lc " hopes for ") (lc " works towards ") '.',
   matchCapMidStop (lc " follows ") (lc " collaborates with ") '.',
   matchCapMidStop (lc " accepts ") (lc " decides to embrace ") '.']

/-- `self.rewrite_patterns['appearance_focus']['appearance_to_trait']`. -/
def appearance_focus_rules : List Matcher :=
  [matchLitCap (lc "beautiful ") (lc "intelligent "),
   matchLitCap (lc "pretty ") (lc "talented "),
   matchLitCap (lc "gorgeous ") (lc "skilled "),
   matchLitCap (lc "stunning ") (lc "accomplished "),
   matchLitCap (lc "attractive ") (lc "capable ")]

/-- `self.rewrite_patterns['relationship_defining']['add_independence']`. -/
def relationship_defining_rules : List Matcher :=
  [matchCapCommaWsLit (lc "daughter of ") (lc ", an independent woman and daughter of "),
   matchCapCommaWsLit (lc "wife of ") (lc ", a self-reliant individual and wife of "),
   matchCapMidStop (lc " belongs to ") (lc " has her own identity and belongs to ") '.']

/-- `self.rewrite_patterns['occupation_gap']['profession_additions']`. -/
def occ_profession_additions : List (List Char) :=
  [lc "doctor", lc "engineer", lc "teacher", lc "lawyer", lc "businesswoman",
   lc "artist", lc "writer", lc "scientist", lc "manager", lc "consultant",
   lc "designer", lc "architect", lc "journalist", lc "researcher", lc "entrepreneur"]

/-- One `for pattern, replacement in ...` loop body of
`rewrite_text_rule_based` lines 168-206: search, then substitute every
match, appending the branch's improvement message once per fired rule. -/
def applyPatternRules (rules : List Matcher) (msg : List Char)
    (st : List Char × List (List Char)) : List Char × List (List Char) :=
  rules.foldl
    (fun st m =>
      if searchAny m st.1 then (subAll m st.1, st.2 ++ [msg]) else st) st

/-- The `occupation_gap` branch of the loop (patterns, then the random
profession injection guarded by the four-profession check). -/
def occupation_branch (pick : List (List Char) → List Char)
    (st : List Char × List (List Char)) : List Char × List (List Char) :=
  let st1 := applyPatternRules occupation_gap_rules
    (lc "Added professional identity to character introduction") st
  if !([lc "doctor", lc "engineer", lc "teacher", lc "lawyer"].any
      (fun p => inStr p (lowerL st1.1))) then
    let profession := pick occ_profession_additions
    match find_female_name st1.1 with
    | some nm =>
      (replaceFirst nm (nm ++ lc ", a " ++ profession ++ lc ",") st1.1,
       st1.2 ++ [lc "Added profession (" ++ profession ++ lc ") to female character"])
    | none => st1
  else st1

/-- One iteration of `for bias_type in bias_types` (unknown keys are
silently skipped, as in the source). -/
def rewrite_loop_step (pick : List (List Char) → List Char)
    (st : List Char × List (List Char)) (bias_type : String) :
    List Char × List (List Char) :=
  if bias_type = "occupation_gap" then occupation_branch pick st
  else if bias_type = "agency_gap" then
    applyPatternRules agency_gap_rules
      (lc "Converted passive action to active agency") st
  else if bias_type = "appearance_focus" then
    applyPatternRules appearance_focus_rules
      (lc "Replaced appearance description with character trait") st
  else if bias_type = "relationship_defining" then
    applyPatternRules relationship_defining_rules
      (lc "Added independent identity alongside relationship") st
  else st

/-- The structural-substitution phase of `rewrite_text_rule_based`
(lines 162-206). -/
def apply_rewrite_loop (pick : List (List Char) → List Char)
    (bias_types : List String) (text : List Char) :
    List Char × List (List Char) :=
  bias_types.foldl (rewrite_loop_step pick) (text, [])

/-- `self.appearance_replacements` (dict, insertion order). -/
def appearance_replacements : List (List Char × List (List Char)) :=
  [(lc "beautiful", [lc "accomplished", lc "talented", lc "skilled", lc "intelligent"]),
   (lc "pretty", [lc "capable", lc "competent", lc "experienced", lc "knowledgeable"]),
   (lc "gorgeous", [lc "brilliant", lc "innovative", lc "creative", lc "successful"]),
   (lc "stunning", [lc "impressive", lc "remarkable", lc "outstanding", lc "exceptional"]),
   (lc "attractive", [lc "engaging", lc "compelling", lc "influential", lc "respected"]),
   (lc "handsome", [lc "professional", lc "accomplished", lc "skilled", lc "experienced"]),
   (lc "good-looking", [lc "well-regarded", lc "respected", lc "competent", lc "capable"])]

/-- `_reduce_appearance_focus`. -/
def reduce_appearance_focus (pick : List (List Char) → List Char)
    (text : List Char) : List Char × List (List Char) :=
  appearance_replacements.foldl
    (fun st pr =>
      if inStr pr.1 (lowerL st.1) then
        let replacement := pick pr.2
        (subFirstCI pr.1 replacement st.1,
         st.2 ++ [lc "Replaced appearance-focused \"" ++ pr.1
           ++ lc "\" with \"" ++ replacement ++ lc "\""])
      else st) (text, [])

/-- `self.agency_replacements` (dict, insertion order). -/
def agency_replacements : List (List Char × List (List Char)) :=
  [(lc "waits for", [lc "actively seeks", lc "pursues", lc "works towards", lc "strives for"]),
   (lc "hopes for", [lc "works towards", lc "actively pursues", lc "strives to achieve"]),
   (lc "wishes for", [lc "actively seeks", lc "works to obtain", lc "pursues"]),
   (lc "dreams of", [lc "works towards", lc "actively pursues", lc "strives for"]),
   (lc "receives", [lc "earns", lc "achieves", lc "obtains", lc "secures"]),
   (lc "is given", [lc "earns", lc "achieves", lc "secures", lc "obtains"]),
   (lc "gets", [lc "earns", lc "achieves", lc "secures", lc "obtains"])]

/-- `_increase_agency`. -/
def increase_agency (pick : List (List Char) → List Char)
    (text : List Char) : List Char × List (List Char) :=
  agency_replacements.foldl
    (fun st pr =>
      if inStr pr.1 (lowerL st.1) then
        (subFirstCI pr.1 (pick pr.2) st.1,
         st.2 ++ [lc "Converted passive action to active agency"])
      else st) (text, [])

/-- `self.professional_titles`. -/
def professional_titles : List (List Char) :=
  [lc "doctor", lc "engineer", lc "lawyer", lc "teacher", lc "scientist",
   lc "researcher", lc "manager", lc "director", lc "consultant",
   lc "entrepreneur", lc "artist", lc "writer", lc "journalist",
   lc "designer", lc "architect", lc "analyst"]

/-- `female_indicators` of `_add_professional_identity`. -/
def female_indicators : List (List Char) :=
  [lc "she", lc "her", lc "daughter", lc "wife", lc "sister", lc "mother"]

/-- `self.profession_additions`. -/
def profession_additions_phrases : List (List Char) :=
  [lc "a skilled professional", lc "an accomplished expert",
   lc "a talented specialist", lc "an experienced professional",
   lc "a successful entrepreneur", lc "a dedicated professional"]

/-- `_add_professional_identity`. -/
def add_professional_identity (pick : List (List Char) → List Char)
    (text : List Char) : List Char × List (List Char) :=
  let has_female_context := female_indicators.any (fun w => inStr w (lowerL text))
  let st1 :=
    if has_female_context
        && !(professional_titles.any (fun p => inStr p (lowerL text))) then
      let profession := pick profession_additions_phrases
      match find_first_cap_word text with
      | some nm =>
        (replaceFirst nm (nm ++ lc ", " ++ profession) text,
         [lc "Added professional identity to character introduction"])
      | none => (text, [])
    else (text, [])
  if inStr (lc "daughter of") (lowerL st1.1)
      && !(inStr (lc "professional") (lowerL st1.1)) then
    (subFirst (matchWordCommaWsLit (lc "daughter of") (lc ", a scientist, daughter of")) st1.1,
     st1.2 ++ [lc "Added profession (scientist) to female character"])
  else st1

/-- `self.relationship_patterns`, applied by
`_reduce_relationship_dependency` (search and first-match substitution,
case-insensitive). -/
def reduce_relationship_dependency (text : List Char) :
    List Char × List (List Char) :=
  [matchWordCommaWsLitG2 (lc "daughter of ") (lc ", a professional and daughter of "),
   matchWordCommaWsLitG2 (lc "wife of ") (lc ", an accomplished professional and wife of "),
   matchWordCommaWsLitG2 (lc "sister of ") (lc ", an independent professional and sister of "),
   matchWordWsLit (lc "belongs to") (lc ", a successful professional, belongs to")].foldl
    (fun st m =>
      if searchAny m st.1 then
        (subFirst m st.1,
         st.2 ++ [lc "Added independent identity alongside family relationship"])
      else st) (text, [])

/-- `bias_indicators` patterns of `_calculate_bias_reduction`
(relationship markers, passive verbs, appearance words; the
`no_profession` key is skipped by the source itself). -/
def bias_indicator_patterns : List (List Char) :=
  [lc "daughter of", lc "wife of", lc "sister of", lc "belongs to",
   lc "receives", lc "waits", lc "hopes", lc "follows", lc "accepts",
   lc "beautiful", lc "pretty", lc "gorgeous", lc "stunning", lc "attractive"]

/-- `profession_words` of `_calculate_bias_reduction`. -/
def profession_words : List (List Char) :=
  [lc "doctor", lc "engineer", lc "teacher", lc "lawyer", lc "professional",
   lc "works", lc "career"]

/-- `_calculate_bias_reduction` (the `bias_types` argument is unused by the
source body and kept for signature fidelity). -/
def calculate_bias_reduction (original rewritten : List Char)
    (bias_types : List String) : Rat :=
  let oLow := lowerL original
  let rLow := lowerL rewritten
  let original_bias_count := (bias_indicator_patterns.map (fun p => countSub p oLow)).sum
  let rewritten_bias_count := (bias_indicator_patterns.map (fun p => countSub p rLow)).sum
  let original_professions := (profession_words.filter (fun w => inStr w oLow)).length
  let rewritten_professions := (profession_words.filter (fun w => inStr w rLow)).length
  if original_bias_count = 0 then 50
  else
    let bias_reduction : Rat :=
      max 0 (((original_bias_count : Rat) - (rewritten_bias_count : Rat))
        / (original_bias_count : Rat) * 100)
    let profession_improvement : Rat :=
      min 30 (((rewritten_professions : Rat) - (original_professions : Rat)) * 10)
    min 100 (bias_reduction + profession_improvement)

/-- Characters allowed by the readability check
(`not re.search(r'[^\w\s.,!?;:-]', rewritten)`). -/
def okReadChar (c : Char) : Bool :=
  isWordChar c || isSpaceChar c || c = '.' || c = ',' || c = '!' || c = '?'
    || c = ';' || c = ':' || c = '-'

/-- `_calculate_quality_score`. -/
def calculate_quality_score (original rewritten : List Char)
    (improvements : List (List Char)) : Rat :=
  let length_ratio : Rat :=
    if 0 < original.length then (rewritten.length : Rat) / (original.length : Rat) else 1
  let length_preservation : Rat :=
    if 4/5 ≤ length_ratio ∧ length_ratio ≤ 3/2 then 20
    else if 3/5 ≤ length_ratio ∧ length_ratio ≤ 2 then 10
    else 0
  let original_names := firstDedupAux [] (cap_seqs original)
  let rewritten_names := cap_seqs rewritten
  let name_preservation_ratio : Rat :=
    if original_names.isEmpty then 1
    else ((original_names.filter (fun n => rewritten_names.contains n)).length : Rat)
      / (original_names.length : Rat)
  let name_preservation := name_preservation_ratio * 20
  let sdiff := ((sentence_marks original : Int) - (sentence_marks rewritten : Int)).natAbs
  let narrative_flow : Rat := if sdiff ≤ 2 then 20 else if sdiff ≤ 4 then 10 else 0
  let improvement_count : Rat := min 20 (5 * (improvements.length : Rat))
  let readability : Rat := if !rewritten.isEmpty && rewritten.all okReadChar then 20 else 0
  length_preservation + name_preservation + narrative_flow
    + improvement_count + readability

/-- `passive_words` of `_analyze_llm_improvements`. -/
def passive_words : List (List Char) :=
  [lc "receives", lc "waits", lc "hopes", lc "follows", lc "accepts"]

/-- `active_words` of `_analyze_llm_improvements`. -/
def active_words : List (List Char) :=
  [lc "decides", lc "chooses", lc "leads", lc "creates", lc "initiates"]

/-- `appearance_words` of `_analyze_llm_improvements`. -/
def llm_appearance_words : List (List Char) :=
  [lc "beautiful", lc "pretty", lc "gorgeous", lc "stunning", lc "attractive"]

/-- `independence_words` of `_analyze_llm_improvements`. -/
def independence_words : List (List Char) :=
  [lc "independent", lc "professional", lc "career", lc "self-reliant"]

/-- `_analyze_llm_improvements`. -/
def analyze_llm_improvements (original rewritten : List Char)
    (bias_types : List String) : List (List Char) :=
  let oLow := lowerL original
  let rLow := lowerL rewritten
  let op := (profession_words.filter (fun w => inStr w oLow)).length
  let rp := (profession_words.filter (fun w => inStr w rLow)).length
  let i1 := if op < rp then [lc "Added professional identity to characters"] else []
  let opas := (passive_words.filter (fun w => inStr w oLow)).length
  let rpas := (passive_words.filter (fun w => inStr w rLow)).length
  let oact := (active_words.filter (fun w => inStr w oLow)).length
  let ract := (active_words.filter (fun w => inStr w rLow)).length
  let i2 := if oact < ract || rpas < opas then
    [lc "Improved character agency and active voice"] else []
  let oapp := (llm_appearance_words.filter (fun w => inStr w oLow)).length
  let rapp := (llm_appearance_words.filter (fun w => inStr w rLow)).length
  let i3 := if rapp < oapp then [lc "Reduced focus on physical appearance"] else []
  let oind := (independence_words.filter (fun w => inStr w oLow)).length
  let rind := (independence_words.filter (fun w => inStr w rLow)).length
  let i4 := if oind < rind then
    [lc "Added independent identity alongside relationships"] else []
  i1 ++ i2 ++ i3 ++ i4

/-- `rewrite_text_rule_based`: structural loop, the four gated passes,
then the two scores (`suggestions` is computed by the source but not part
of the returned `RewriteResult`). -/
def rewrite_text_rule_based (pick : List (List Char) → List Char)
    (text : List Char) (bias_types : List String) : RewriteResult :=
  let st1 := apply_rewrite_loop pick bias_types text
  let st2 := if bias_types.contains "appearance_focus" then
    reduce_appearance_focus pick st1.1 else (st1.1, [])
  let st3 := if bias_types.contains "agency_gap" then
    increase_agency pick st2.1 else (st2.1, [])
  let st4 := if bias_types.contains "occupation_gap" then
    add_professional_identity pick st3.1 else (st3.1, [])
  let st5 := if bias_types.contains "relationship_defining" then
    reduce_relationship_dependency st4.1 else (st4.1, [])
  let improvements := st1.2 ++ st2.2 ++ st3.2 ++ st4.2 ++ st5.2
  { original_text := text
    rewritten_text := st5.1
    quality_score := calculate_quality_score text st5.1 improvements
    bias_reduction := calculate_bias_reduction text st5.1 bias_types
    improvements := improvements
    rewrite_type := "rule_based" }

/-- `rewrite_text_llm`: the hosted-model call is modelled by its outcome
`llm_call : Except String (List Char)`; the `except` branch falls back to
the rule-based path, as the source does after logging. -/
def rewrite_text_llm (pick : List (List Char) → List Char)
    (llm_call : Except String (List Char)) (text : List Char)
    (bias_types : List String) : RewriteResult :=
  match llm_call with
  | .ok content =>
    let rewritten_text := trimWs content
    let improvements := analyze_llm_improvements text rewritten_text bias_types
    let bias_reduction_score := calculate_bias_reduction text rewritten_text bias_types
    let quality_score := calculate_quality_score text rewritten_text improvements
    { original_text := text
      rewritten_text := rewritten_text
      quality_score := quality_score
      bias_reduction := bias_reduction_score
      improvements := improvements
      rewrite_type := "llm_based" }
  | .error _ => rewrite_text_rule_based pick text bias_types

/-! ### C4: bias-reduction score -/

/-- C4 counterexample: `_calculate_bias_reduction` can return a negative
value — the profession term `min(30,(newProf−origProf)×10)` is negative
when the rewrite drops profession words. -/
theorem bias_reduction_negative_counterexample :
    calculate_bias_reduction (lc "daughter of doctor") (lc "daughter of") [] = -10
    ∧ ¬(0 ≤ calculate_bias_reduction (lc "daughter of doctor") (lc "daughter of") []) := by
  have h : calculate_bias_reduction (lc "daughter of doctor") (lc "daughter of") [] = -10 := by
    simp only [calculate_bias_reduction]
    have h1 : (bias_indicator_patterns.map
        (fun p => countSub p (lowerL (lc "daughter of doctor")))).sum = 1 := by decide
    have h2 : (bias_indicator_patterns.map
        (fun p => countSub p (lowerL (lc "daughter of")))).sum = 1 := by decide
    have h3 : (profession_words.filter
        (fun w => inStr w (lowerL (lc "daughter of doctor")))).length = 1 := by decide
    have h4 : (profession_words.filter
        (fun w => inStr w (lowerL (lc "daughter of")))).length = 0 := by decide
    rw [h1, h2, h3, h4]
    norm_num
  exact ⟨h, by rw [h]; norm_num⟩

/-- C4 amended: the score is 50 exactly when the original has zero
indicator hits, and otherwise `min(100, max(0,(o−n)/o×100) +
min(30,(newProf−origProf)×10))`; it is bounded above by 100 but not below
(the profession term may be negative), and it ignores the flagged-dimension
list entirely. -/
theorem bias_reduction_closed_form (original rewritten : List Char)
    (bias_types : List String) :
    calculate_bias_reduction original rewritten bias_types
      = (if (bias_indicator_patterns.map (fun p => countSub p (lowerL original))).sum = 0
         then 50
         else min 100
           (max 0 ((((bias_indicator_patterns.map (fun p => countSub p (lowerL original))).sum : Rat)
               - ((bias_indicator_patterns.map (fun p => countSub p (lowerL rewritten))).sum : Rat))
             / ((bias_indicator_patterns.map (fun p => countSub p (lowerL original))).sum : Rat) * 100)
           + min 30 ((((profession_words.filter (fun w => inStr w (lowerL rewritten))).length : Rat)
               - ((profession_words.filter (fun w => inStr w (lowerL original))).length : Rat)) * 10)))
    ∧ calculate_bias_reduction original rewritten bias_types ≤ 100
    ∧ calculate_bias_reduction original rewritten bias_types
        = calculate_bias_reduction original rewritten [] := by
  refine ⟨rfl, ?_, rfl⟩
  simp only [calculate_bias_reduction]
  split
  · norm_num
  · exact min_le_left _ _

/-! ### C3: quality score -/

/-- The quality rubric exactly as the specification (§4.3) words it:
sentence-count preservation (|Δ|≤1→20, ≤2→15, else 10), name preservation
(fraction retained ×20), word-count ratio (rewritten ≥80% of original
→20, else 10), bias-improvement credit `min(20,biasReductionScore/5)`,
and length-ratio appropriateness ([0.8,1.5]→20, [0.6,2.0]→15, else 10). -/
def spec_quality_rubric (original rewritten : List Char)
    (improvements : List (List Char)) : Rat :=
  let sdiff := ((sentence_marks original : Int) - (sentence_marks rewritten : Int)).natAbs
  let sentence_component : Rat := if sdiff ≤ 1 then 20 else if sdiff ≤ 2 then 15 else 10
  let onames := firstDedupAux [] (cap_seqs original)
  let name_component : Rat :=
    (if onames.isEmpty then 1
     else ((onames.filter (fun n => (cap_seqs rewritten).contains n)).length : Rat)
       / (onames.length : Rat)) * 20
  let word_component : Rat :=
    if (4 / 5 : Rat) * (wsTokens original : Rat) ≤ (wsTokens rewritten : Rat) then 20 else 10
  let bias_component : Rat := min 20 (calculate_bias_reduction original rewritten [] / 5)
  let ratio : Rat :=
    if 0 < original.length then (rewritten.length : Rat) / (original.length : Rat) else 1
  let length_component : Rat :=
    if 4/5 ≤ ratio ∧ ratio ≤ 3/2 then 20
    else if 3/5 ≤ ratio ∧ ratio ≤ 2 then 15 else 10
  sentence_component + name_component + word_component + bias_component + length_component

/-- C3 counterexample: on an identity rewrite of `"A b."` with no
improvements, `_calculate_quality_score` yields 80 while the spec's rubric
yields 90 (the code has no word-count or bias-improvement component; its
sentence and length tiers also differ). -/
theorem quality_rubric_counterexample :
    calculate_quality_score (lc "A b.") (lc "A b.") [] = 80
    ∧ spec_quality_rubric (lc "A b.") (lc "A b.") [] = 90
    ∧ calculate_quality_score (lc "A b.") (lc "A b.") []
        ≠ spec_quality_rubric (lc "A b.") (lc "A b.") [] := by
  have hq : calculate_quality_score (lc "A b.") (lc "A b.") [] = 80 := by
    simp only [calculate_quality_score]
    have e1 : (lc "A b.").length = 4 := by decide
    have e2 : firstDedupAux [] (cap_seqs (lc "A b.")) = [] := by decide
    have e3 : sentence_marks (lc "A b.") = 1 := by decide
    have e4 : (lc "A b.").isEmpty = false := by decide
    have e5 : (lc "A b.").all okReadChar = true := by decide
    rw [e1, e2, e3, e4, e5]
    norm_num
  have hs : spec_quality_rubric (lc "A b.") (lc "A b.") [] = 90 := by
    simp only [spec_quality_rubric]
    have e1 : (lc "A b.").length = 4 := by decide
    have e2 : firstDedupAux [] (cap_seqs (lc "A b.")) = [] := by decide
    have e3 : sentence_marks (lc "A b.") = 1 := by decide
    have e6 : wsTokens (lc "A b.") = 2 := by decide
    have e7 : calculate_bias_reduction (lc "A b.") (lc "A b.") [] = 50 := by
      simp only [calculate_bias_reduction]
      have : (bias_indicator_patterns.map
          (fun p => countSub p (lowerL (lc "A b.")))).sum = 0 := by decide
      rw [this]
      norm_num
    rw [e1, e2, e3, e6, e7]
    norm_num
  exact ⟨hq, hs, by rw [hq, hs]; norm_num⟩

/-- Character-length-ratio component of `_calculate_quality_score`. -/
def quality_length_component (original rewritten : List Char) : Rat :=
  let length_ratio : Rat :=
    if 0 < original.length then (rewritten.length : Rat) / (original.length : Rat) else 1
  if 4/5 ≤ length_ratio ∧ length_ratio ≤ 3/2 then 20
  else if 3/5 ≤ length_ratio ∧ length_ratio ≤ 2 then 10
  else 0

/-- Name-preservation component of `_calculate_quality_score`. -/
def quality_name_component (original rewritten : List Char) : Rat :=
  let original_names := firstDedupAux [] (cap_seqs original)
  (if original_names.isEmpty then 1
   else ((original_names.filter (fun n => (cap_seqs rewritten).contains n)).length : Rat)
     / (original_names.length : Rat)) * 20

/-- Sentence-count component of `_calculate_quality_score`. -/
def quality_flow_component (original rewritten : List Char) : Rat :=
  let sdiff := ((sentence_marks original : Int) - (sentence_marks rewritten : Int)).natAbs
  if sdiff ≤ 2 then 20 else if sdiff ≤ 4 then 10 else 0

/-- Improvement-count component of `_calculate_quality_score`. -/
def quality_improvement_component (improvements : List (List Char)) : Rat :=
  min 20 (5 * (improvements.length : Rat))

/-- Readability component of `_calculate_quality_score`. -/
def quality_readability_component (rewritten : List Char) : Rat :=
  if !rewritten.isEmpty && rewritten.all okReadChar then 20 else 0

/-- The length component is between 0 and 20. -/
theorem quality_length_component_bounds (original rewritten : List Char) :
    0 ≤ quality_length_component original rewritten
      ∧ quality_length_component original rewritten ≤ 20 := by
  simp only [quality_length_component]
  split_ifs <;> norm_num

/-- The name component is between 0 and 20. -/
theorem quality_name_component_bounds (original rewritten : List Char) :
    0 ≤ quality_name_component original rewritten
      ∧ quality_name_component original rewritten ≤ 20 := by
  simp only [quality_name_component]
  by_cases h : (firstDedupAux [] (cap_seqs original)).isEmpty
  · simp [h]
  · simp only [h, Bool.false_eq_true, if_false]
    have hpos : 0 < ((firstDedupAux [] (cap_seqs original)).length : Rat) := by
      have : firstDedupAux [] (cap_seqs original) ≠ [] := by
        intro hx
        rw [hx] at h
        exact h rfl
      have : 0 < (firstDedupAux [] (cap_seqs original)).length :=
        List.length_pos.mpr this
      exact_mod_cast this
    have hle : (((firstDedupAux [] (cap_seqs original)).filter
        (fun n => (cap_seqs rewritten).contains n)).length : Rat)
        ≤ ((firstDedupAux [] (cap_seqs original)).length : Rat) := by
      exact_mod_cast List.length_filter_le _ _
    constructor
    · positivity
    · have hr : (((firstDedupAux [] (cap_seqs original)).filter
          (fun n => (cap_seqs rewritten).contains n)).length : Rat)
          / ((firstDedupAux [] (cap_seqs original)).length : Rat) ≤ 1 :=
        (div_le_one hpos).mpr hle
      nlinarith [hr]

/-- The sentence-count component is between 0 and 20. -/
theorem quality_flow_component_bounds (original rewritten : List Char) :
    0 ≤ quality_flow_component original rewritten
      ∧ quality_flow_component original rewritten ≤ 20 := by
  simp only [quality_flow_component]
  split_ifs <;> norm_num

/-- The improvement-count component is between 0 and 20. -/
theorem quality_improvement_component_bounds (improvements : List (List Char)) :
    0 ≤ quality_improvement_component improvements
      ∧ quality_improvement_component improvements ≤ 20 := by
  simp only [quality_improvement_component]
  constructor
  · have h5 : (0 : Rat) ≤ 5 * (improvements.length : Rat) := by positivity
    exact le_min (by norm_num) h5
  · exact min_le_left _ _

/-- The readability component is between 0 and 20. -/
theorem quality_readability_component_bounds (rewritten : List Char) :
    0 ≤ quality_readability_component rewritten
      ∧ quality_readability_component rewritten ≤ 20 := by
  simp only [quality_readability_component]
  split_ifs <;> norm_num

/-- C3 amended: `_calculate_quality_score` is the sum of five components
each capped at 20 — character-length-ratio tiering ([0.8,1.5]→20,
[0.6,2.0]→10, else 0), name preservation (fraction retained ×20),
sentence-count preservation (|Δ|≤2→20, ≤4→10, else 0), improvement-count
credit `min(20, 5×#improvements)`, and a readability check (20 when the
rewritten text is non-empty and uses only word, space and `.,!?;:-`
characters, else 0) — so the total lies in [0,100].  There is no
word-count or bias-improvement component. -/
theorem quality_score_closed_form_and_bounds (original rewritten : List Char)
    (improvements : List (List Char)) :
    calculate_quality_score original rewritten improvements
      = quality_length_component original rewritten
        + quality_name_component original rewritten
        + quality_flow_component original rewritten
        + quality_improvement_component improvements
        + quality_readability_component rewritten
    ∧ 0 ≤ calculate_quality_score original rewritten improvements
    ∧ calculate_quality_score original rewritten improvements ≤ 100 := by
  have heq : calculate_quality_score original rewritten improvements
      = quality_length_component original rewritten
        + quality_name_component original rewritten
        + quality_flow_component original rewritten
        + quality_improvement_component improvements
        + quality_readability_component rewritten := rfl
  obtain ⟨a1, b1⟩ := quality_length_component_bounds original rewritten
  obtain ⟨a2, b2⟩ := quality_name_component_bounds original rewritten
  obtain ⟨a3, b3⟩ := quality_flow_component_bounds original rewritten
  obtain ⟨a4, b4⟩ := quality_improvement_component_bounds improvements
  obtain ⟨a5, b5⟩ := quality_readability_component_bounds rewritten
  refine ⟨heq, ?_, ?_⟩
  · rw [heq]; linarith
  · rw [heq]; linarith

/-! ### C5: structural rules replace all matches, not only the first -/

/-- A fixed choice function for concrete statements (stands for the
injected random source; the branches exercised below never consult it). -/
def pick0 : List (List Char) → List Char := fun l => l.headD []

/-- "Each rule fires at most once, first match only", as the specification
words it: the structural loop with `count=1` substitutions. -/
def applyPatternRulesFirstOnly (rules : List Matcher) (msg : List Char)
    (st : List Char × List (List Char)) : List Char × List (List Char) :=
  rules.foldl
    (fun st m =>
      if searchAny m st.1 then (subFirst m st.1, st.2 ++ [msg]) else st) st

/-- The `occupation_gap` branch under the spec's first-match-only reading. -/
def occupation_branch_spec (pick : List (List Char) → List Char)
    (st : List Char × List (List Char)) : List Char × List (List Char) :=
  let st1 := applyPatternRulesFirstOnly occupation_gap_rules
    (lc "Added professional identity to character introduction") st
  if !([lc "doctor", lc "engineer", lc "teacher", lc "lawyer"].any
      (fun p => inStr p (lowerL st1.1))) then
    let profession := pick occ_profession_additions
    match find_female_name st1.1 with
    | some nm =>
      (replaceFirst nm (nm ++ lc ", a " ++ profession ++ lc ",") st1.1,
       st1.2 ++ [lc "Added profession (" ++ profession ++ lc ") to female character"])
    | none => st1
  else st1

/-- One loop iteration under the spec's first-match-only reading. -/
def rewrite_loop_step_spec (pick : List (List Char) → List Char)
    (st : List Char × List (List Char)) (bias_type : String) :
    List Char × List (List Char) :=
  if bias_type = "occupation_gap" then occupation_branch_spec pick st
  else if bias_type = "agency_gap" then
    applyPatternRulesFirstOnly agency_gap_rules
      (lc "Converted passive action to active agency") st
  else if bias_type = "appearance_focus" then
    applyPatternRulesFirstOnly appearance_focus_rules
      (lc "Replaced appearance description with character trait") st
  else if bias_type = "relationship_defining" then
    applyPatternRulesFirstOnly relationship_defining_rules
      (lc "Added independent identity alongside relationship") st
  else st

/-- The structural phase under the spec's first-match-only reading. -/
def apply_rewrite_loop_spec (pick : List (List Char) → List Char)
    (bias_types : List String) (text : List Char) :
    List Char × List (List Char) :=
  bias_types.foldl (rewrite_loop_step_spec pick) (text, [])

/-- C5 counterexample: on a text with two matches of the
`beautiful ([A-Z][a-z]+)` rule, the code rewrites both occurrences in the
one firing of the rule; the spec's first-match-only reading leaves the
second occurrence intact. -/
theorem structural_rules_first_only_refuted :
    (apply_rewrite_loop pick0 ["appearance_focus"]
        (lc "beautiful Priya, beautiful Meera")).1
      = lc "intelligent Priya, intelligent Meera"
    ∧ (apply_rewrite_loop_spec pick0 ["appearance_focus"]
        (lc "beautiful Priya, beautiful Meera")).1
      = lc "intelligent Priya, beautiful Meera"
    ∧ (apply_rewrite_loop pick0 ["appearance_focus"]
        (lc "beautiful Priya, beautiful Meera")).1
      ≠ (apply_rewrite_loop_spec pick0 ["appearance_focus"]
        (lc "beautiful Priya, beautiful Meera")).1 := by
  refine ⟨by decide, by decide, by decide⟩

/-- One substitution step when the matcher fires. -/
theorem subAllF_succ_some {m : Matcher} {cs r rest : List Char}
    (hne : cs ≠ []) (h : m cs = some (r, rest)) (fuel : Nat) :
    subAllF (fuel + 1) m cs = r ++ subAllF fuel m rest := by
  cases cs with
  | nil => exact absurd rfl hne
  | cons c cs' => simp [subAllF, h]

/-- One scan step when the matcher does not fire. -/
theorem subAllF_succ_none {m : Matcher} {c : Char} {cs : List Char}
    (h : m (c :: cs) = none) (fuel : Nat) :
    subAllF (fuel + 1) m (c :: cs) = c :: subAllF fuel m cs := by
  simp [subAllF, h]

theorem subAllF_nil (m : Matcher) (fuel : Nat) : subAllF fuel m [] = [] := by
  cases fuel <;> rfl

/-- On an all-lowercase block followed by a non-lowercase head, `takeWhile`
keeps exactly the block. -/
theorem takeWhile_lower_append {tp rest : List Char}
    (h : ∀ c ∈ tp, isLowerChar c = true)
    (hrest : ∀ d, rest.head? = some d → isLowerChar d = false) :
    (tp ++ rest).takeWhile isLowerChar = tp
      ∧ (tp ++ rest).dropWhile isLowerChar = rest := by
  induction tp with
  | nil =>
    simp only [List.nil_append]
    cases rest with
    | nil => exact ⟨rfl, rfl⟩
    | cons d rest' =>
      have hd := hrest d rfl
      exact ⟨by simp [List.takeWhile_cons, hd], by simp [List.dropWhile_cons, hd]⟩
  | cons c tp ih =>
    have hc := h c (List.mem_cons_self _ _)
    obtain ⟨h1, h2⟩ := ih (fun x hx => h x (List.mem_cons_of_mem _ hx))
    exact ⟨by simp [List.takeWhile_cons, hc, h1],
      by simp [List.dropWhile_cons, hc, h2]⟩

theorem isPrefixOf_append_self (l t : List Char) : l.isPrefixOf (l ++ t) = true :=
  List.isPrefixOf_iff_prefix.mpr (List.prefix_append l t)

/-- `matchLitCap` fires on `lit ++ capitalizedWord ++ rest` when the rest
does not start with a lowercase letter, consuming the literal and the word. -/
theorem matchLitCap_at_append (lit repl : List Char) (U : Char)
    (tl rest : List Char) (hU : isUpperChar U = true) (htl1 : tl ≠ [])
    (htl2 : ∀ c ∈ tl, isLowerChar c = true)
    (hrest : ∀ d, rest.head? = some d → isLowerChar d = false) :
    matchLitCap lit repl (lit ++ (U :: tl) ++ rest)
      = some (repl ++ U :: tl, rest) := by
  obtain ⟨htw, hdw⟩ := takeWhile_lower_append htl2 hrest
  have htle : tl.isEmpty = false := by
    cases tl with
    | nil => exact absurd rfl htl1
    | cons a l => rfl
  simp only [matchLitCap, List.append_assoc, List.cons_append,
    isPrefixOf_append_self, if_true, List.drop_left]
  simp [hU, htw, hdw, htle]

/-- `matchLitCap` cannot fire when the scan head differs from the
literal's first character. -/
theorem matchLitCap_none_head {repl : List Char} {c l0 : Char}
    {ls cs : List Char} (hne : c ≠ l0) :
    matchLitCap (l0 :: ls) repl (c :: cs) = none := by
  have hbe : (l0 == c) = false := beq_eq_false_iff_ne.mpr (Ne.symm hne)
  simp only [matchLitCap, List.isPrefixOf, hbe, Bool.false_and,
    Bool.false_eq_true, if_false]

/-- Scanning over a block on which the matcher never fires copies it. -/
theorem subAllF_walk_none (m : Matcher) : ∀ (mid rest : List Char) (f : Nat),
    (∀ s t, mid = s ++ t → t ≠ [] → m (t ++ rest) = none) →
    subAllF (mid.length + f) m (mid ++ rest) = mid ++ subAllF f m rest := by
  intro mid
  induction mid with
  | nil => intro rest f _; simp
  | cons c mid ih =>
    intro rest f hm
    have h0 : m (c :: (mid ++ rest)) = none := by
      have := hm [] (c :: mid) rfl (by simp)
      simpa using this
    have hL : (c :: mid).length + f = (mid.length + f) + 1 := by
      simp [List.length_cons]
      omega
    rw [hL, List.cons_append, subAllF_succ_none h0,
      ih rest f (fun s t hst htne => hm (c :: s) t (by rw [hst]; rfl) htne)]
    rfl

/-- C5 amended: one firing of a structural rule rewrites every
non-overlapping match, not only the first: on any text of the shape
`beautiful <Word1>, beautiful <Word2>`, the `beautiful ([A-Z][a-z]+)`
rule of the `appearance_focus` dimension replaces both occurrences in the
single `re.sub` call. -/
theorem rule_substitutes_every_match (P Q : Char) (tp tq : List Char)
    (hP : isUpperChar P = true) (hQ : isUpperChar Q = true)
    (htp1 : tp ≠ []) (htp2 : ∀ c ∈ tp, isLowerChar c = true)
    (htq1 : tq ≠ []) (htq2 : ∀ c ∈ tq, isLowerChar c = true) :
    subAll (matchLitCap (lc "beautiful ") (lc "intelligent "))
        (lc "beautiful " ++ (P :: tp) ++ lc ", beautiful " ++ (Q :: tq))
      = lc "intelligent " ++ (P :: tp) ++ lc ", intelligent " ++ (Q :: tq) := by
  have hmatch1 : matchLitCap (lc "beautiful ") (lc "intelligent ")
      (lc "beautiful " ++ (P :: tp) ++ lc ", beautiful " ++ (Q :: tq))
      = some (lc "intelligent " ++ P :: tp, lc ", beautiful " ++ (Q :: tq)) := by
    rw [List.append_assoc (lc "beautiful " ++ (P :: tp))]
    exact matchLitCap_at_append _ _ P tp _ hP htp1 htp2
      (by
        intro d hd
        rw [show (lc ", beautiful " ++ (Q :: tq)).head? = some ',' from rfl] at hd
        injection hd with hd'
        rw [← hd']
        decide)
  have hmatch2 : matchLitCap (lc "beautiful ") (lc "intelligent ")
      (lc "beautiful " ++ (Q :: tq))
      = some (lc "intelligent " ++ Q :: tq, []) := by
    have := matchLitCap_at_append (lc "beautiful ") (lc "intelligent ")
      Q tq [] hQ htq1 htq2 (by intro d hd; cases hd)
    rw [List.append_nil] at this
    exact this
  have hAne : lc "beautiful " ≠ [] := by decide
  have htne : lc "beautiful " ++ (P :: tp) ++ lc ", beautiful " ++ (Q :: tq) ≠ [] := by
    simp [List.append_eq_nil, hAne]
  obtain ⟨k, hk⟩ : ∃ k,
      (lc "beautiful " ++ (P :: tp) ++ lc ", beautiful " ++ (Q :: tq)).length
        = (2 + (1 + k)) + 1 := by
    refine ⟨tp.length + tq.length + 20, ?_⟩
    have la : (lc "beautiful ").length = 10 := by decide
    have lb : (lc ", beautiful ").length = 12 := by decide
    simp [List.length_append, la, lb]
    omega
  show subAllF _ _ _ = _
  rw [hk, subAllF_succ_some htne hmatch1]
  rw [show lc ", beautiful " ++ (Q :: tq)
      = lc ", " ++ (lc "beautiful " ++ (Q :: tq)) from rfl]
  rw [show (2 : Nat) + (1 + k) = (lc ", ").length + (1 + k) from rfl]
  rw [subAllF_walk_none _ _ _ _ ?hwalk]
  case hwalk =>
    intro s t hst htne'
    have hdec : (s = [] ∧ t = lc ", ") ∨ (s = [','] ∧ t = [' '])
        ∨ (s = lc ", " ∧ t = []) := by
      cases s with
      | nil =>
        left
        exact ⟨rfl, by simpa using hst.symm⟩
      | cons a s' =>
        cases s' with
        | nil =>
          right; left
          have hst' : [',', ' '] = a :: t := by
            rw [show lc ", " = [',', ' '] from rfl] at hst
            simpa using hst
          injection hst' with e1 e2
          exact ⟨by rw [← e1], by rw [← e2]⟩
        | cons b s'' =>
          right; right
          have hst' : [',', ' '] = a :: b :: (s'' ++ t) := by
            rw [show lc ", " = [',', ' '] from rfl] at hst
            simpa using hst
          injection hst' with e1 e3
          injection e3 with e2 e4
          have : s'' ++ t = [] := e4.symm
          rw [List.append_eq_nil] at this
          exact ⟨by rw [← e1, ← e2, this.1]; rfl, this.2⟩
    rcases hdec with ⟨_, rfl⟩ | ⟨_, rfl⟩ | ⟨_, rfl⟩
    · show matchLitCap (lc "beautiful ") (lc "intelligent ")
        (',' :: (' ' :: (lc "beautiful " ++ (Q :: tq)))) = none
      exact matchLitCap_none_head (by decide)
    · show matchLitCap (lc "beautiful ") (lc "intelligent ")
        (' ' :: (lc "beautiful " ++ (Q :: tq))) = none
      exact matchLitCap_none_head (by decide)
    · exact absurd rfl htne'
  rw [Nat.add_comm 1 k, subAllF_succ_some (by simp [List.append_eq_nil, hAne]) hmatch2,
    subAllF_nil]
  rw [show lc ", intelligent " = lc ", " ++ lc "intelligent " from rfl]
  simp [List.append_assoc]

/-- Witness for C5 amended at `beautiful Priya, beautiful Meera`. -/
theorem rule_substitutes_every_match_witness :
    isUpperChar 'P' = true ∧ isUpperChar 'M' = true
    ∧ lc "riya" ≠ [] ∧ (∀ c ∈ lc "riya", isLowerChar c = true)
    ∧ lc "eera" ≠ [] ∧ (∀ c ∈ lc "eera", isLowerChar c = true)
    ∧ subAll (matchLitCap (lc "beautiful ") (lc "intelligent "))
        (lc "beautiful " ++ ('P' :: lc "riya") ++ lc ", beautiful " ++ ('M' :: lc "eera"))
      = lc "intelligent " ++ ('P' :: lc "riya") ++ lc ", intelligent " ++ ('M' :: lc "eera") :=
  ⟨by decide, by decide, by decide, by decide, by decide, by decide,
    rule_substitutes_every_match 'P' 'M' (lc "riya") (lc "eera") (by decide)
      (by decide) (by decide) (by decide) (by decide) (by decide)⟩

/-! ### C7: LLM-path failure falls back to the rule-based path -/

/-- C7: when the hosted-model call fails (for any error, any text, any
flagged dimensions, any random source), `rewrite_text_llm` returns exactly
the result of `rewrite_text_rule_based` on the same arguments instead of
propagating the failure; the returned result carries the `rule_based`
marker, while the successful hosted-model path is marked `llm_based`. -/
theorem llm_failure_falls_back_to_rule_based
    (pick : List (List Char) → List Char) (text : List Char)
    (bias_types : List String) (e : String) :
    rewrite_text_llm pick (.error e) text bias_types
      = rewrite_text_rule_based pick text bias_types
    ∧ (rewrite_text_llm pick (.error e) text bias_types).rewrite_type
        = "rule_based"
    ∧ ∀ content : List Char,
        (rewrite_text_llm pick (.ok content) text bias_types).rewrite_type
          = "llm_based" := by
  refine ⟨rfl, ?_, fun content => rfl⟩
  show (rewrite_text_rule_based pick text bias_types).rewrite_type = "rule_based"
  rfl
